import Mathlib

/-!
Telnet login gate of the NSH library (`apps/nshlib/nsh_telnetlogin.c`)

A shallow embedding of the three functions of the file and the properties
proved about them.

Memory model.  A `char` array is a `List Nat` of byte values; a pointer into
an array is the offset it points at, and the part of the array it can still
walk over is the matching suffix.  Every access outside an array yields
`none`, so a result `some _` says that the run stayed inside its buffers.
The C library routines `isspace`, `fputs` and `fgets` follow ISO C; the copy
routine `strncpy` follows the description that the specification gives of
it.
-/

namespace NshTelnetLogin

/-! ## Pre-processor definitions -/

def TELNET_IAC : Nat := 255
def TELNET_WILL : Nat := 251
def TELNET_WONT : Nat := 252
def TELNET_DO : Nat := 253
def TELNET_DONT : Nat := 254
def TELNET_USE_ECHO : Nat := 1
def TELNET_NOTUSE_ECHO : Nat := 0

/-- The number of bits of `useconds_t`, the type of the argument of
`usleep`: the type is declared outside this file, as an unsigned integer
of 32 bits. -/
def USECONDS_BITS : Nat := 32

/-- The double quote character. -/
def QUOTE : Nat := 34

/-! ## C library routines -/

/-- The `isspace` of `<ctype.h>` in the C locale: space, `\t`, `\n`, `\v`,
`\f`, `\r`. -/
def isspace (c : Nat) : Bool :=
  c == 32 || c == 9 || c == 10 || c == 11 || c == 12 || c == 13

/-- The string held by a `char` array: the bytes before its first NUL. -/
def cstr (s : List Nat) : List Nat := s.takeWhile (fun c => c != 0)

/-- Modelled from the spec: the copy routine `strncpy(dest, src, n)`, which
is library code and not in this file.  By section 4.2, step 4, it is a
truncating copy: at most `n` bytes are copied from the source, a source of
`n` bytes or more fills all `n` bytes and leaves no terminator, and a
shorter source is copied with its terminator while the bytes of the
destination beyond the copy are left untouched.  `dest` and `src` are the
memory from the two pointers onwards; a read past `src` or a write past
`dest` yields `none`. -/
def strncpy : List Nat → List Nat → Nat → Option (List Nat)
  | dest, _, 0 => some dest
  | [], _, _ + 1 => none
  | _ :: _, [], _ + 1 => none
  | _ :: dest, c :: src, n + 1 =>
    if c = 0 then some (0 :: dest)
    else (strncpy dest src n).map (fun d => c :: d)

/-- The `fputs(s, stream)` of `<stdio.h>`: the bytes of `s` before its NUL
are appended to the stream; the NUL itself is not written. -/
def fputs (s : List Nat) (stream : List Nat) : List Nat := stream ++ cstr s

/-- A store `p[i] = v` into an array. -/
def store (p : List Nat) (i : Nat) (v : Nat) : Option (List Nat) :=
  if i < p.length then some (p.set i v) else none

/-! ## nsh_telnetecho -/

/-- The local array `optbuf` of `nsh_telnetecho` after its four stores. -/
def telnetecho_optbuf (is_use : Nat) : List Nat :=
  [TELNET_IAC, if is_use = TELNET_USE_ECHO then TELNET_WILL else TELNET_DO, 1, 0]

/-- The function `nsh_telnetecho` on the bytes of `pstate->cn_outstream`:
`optbuf` is handed to `fputs` as a string, then the stream is flushed. -/
def nsh_telnetecho (cn_outstream : List Nat) (is_use : Nat) : List Nat :=
  fputs (telnetecho_optbuf is_use) cn_outstream

/-! ## nsh_telnettoken -/

/-- The first loop of `nsh_telnettoken`: `start` walks over the suffix of
`cn_line` it points at.  The result is the final offset of `start` and the
flag `quoted`. -/
def token_start : List Nat → Nat → Option (Nat × Bool)
  | [], _ => none
  | c :: rest, start =>
    if c = 0 then some (start, false)
    else if c = QUOTE then some (start + 1, true)
    else if !isspace c then some (start, false)
    else token_start rest (start + 1)

/-- The second loop of `nsh_telnettoken`: `endp1` walks over the suffix of
`cn_line` it points at.  The result is the final offset of `endp1`. -/
def token_end (quoted : Bool) : List Nat → Nat → Option Nat
  | [], _ => none
  | c :: rest, endp1 =>
    if c = 0 then some endp1
    else if quoted then
      (if c = QUOTE then some endp1 else token_end quoted rest (endp1 + 1))
    else if isspace c then some endp1
    else token_end quoted rest (endp1 + 1)

/-- The function `nsh_telnettoken(pstate, buffer, buflen)`: the result is
the pair of `pstate->cn_line` and `buffer` after the call. -/
def nsh_telnettoken (cn_line buffer : List Nat) (buflen : Nat) :
    Option (List Nat × List Nat) :=
  match token_start cn_line 0 with
  | none => none
  | some (start, quoted) =>
    match token_end quoted (cn_line.drop start) start with
    | none => none
    | some endp1 =>
      match store cn_line endp1 0 with
      | none => none
      | some line =>
        match strncpy buffer (line.drop start) buflen with
        | none => none
        | some out => some (line, out)

/-! ## The token in the words of the specification -/

/-- The token of a line as the specification delimits it: after the leading
whitespace, either the characters between an opening quote and the next
quote (or the end of the line), or the run of characters up to the next
whitespace (or the end of the line). -/
def token_of (line : List Nat) : List Nat :=
  match (cstr line).dropWhile isspace with
  | [] => []
  | c :: r =>
    if c = QUOTE then r.takeWhile (fun d => d != QUOTE)
    else (c :: r).takeWhile (fun d => !isspace d)

/-- The offset of the first character of the token in the line. -/
def token_offset (line : List Nat) : Nat :=
  match (cstr line).dropWhile isspace with
  | [] => ((cstr line).takeWhile isspace).length
  | c :: _ =>
    if c = QUOTE then ((cstr line).takeWhile isspace).length + 1
    else ((cstr line).takeWhile isspace).length

/-! ## nsh_telnetlogin -/

/-- Modelled from the spec: the outcome of the credential verifier
(`passwd_verify`, `platform_user_verify` or the comparison with the fixed
credentials, none of them in this file).  `PASSWORD_VERIFY_MATCH`, of
`fsutils/passwd.h`, holds of `Match` alone. -/
inductive VerifyResult where
  | Match
  | NoMatch
  | Error
  deriving DecidableEq, Repr

/-- The message strings of the NSH library that the login writes. -/
inductive Msg where
  | telnetgreeting
  | userprompt
  | passwordprompt
  | loginsuccess
  | badcredentials
  | loginfailure
  deriving DecidableEq, Repr

/-- The constants of the build that the file refers to: the message strings
(their characters) and the two login settings. -/
structure Config where
  g_telnetgreeting : List Nat
  g_userprompt : List Nat
  g_passwordprompt : List Nat
  g_loginsuccess : List Nat
  g_badcredentials : List Nat
  g_loginfailure : List Nat
  CONFIG_NSH_LOGIN_FAILCOUNT : Nat
  CONFIG_NSH_LOGIN_FAILDELAY : Nat

/-- The string that a message names. -/
def Config.text (cfg : Config) : Msg → List Nat
  | Msg.telnetgreeting => cfg.g_telnetgreeting
  | Msg.userprompt => cfg.g_userprompt
  | Msg.passwordprompt => cfg.g_passwordprompt
  | Msg.loginsuccess => cfg.g_loginsuccess
  | Msg.badcredentials => cfg.g_badcredentials
  | Msg.loginfailure => cfg.g_loginfailure

/-- The calls that `nsh_telnetlogin` makes, in the order it makes them.
The argument of `usleep` is the value that the function receives, a
`useconds_t`. -/
inductive Event where
  | fputs (m : Msg)
  | fflush
  | fgets (ok : Bool)
  | telnetecho (is_use : Nat)
  | verify (username password : List Nat) (r : VerifyResult)
  | usleep (usec : Nat)
  deriving DecidableEq, Repr

/-- The fields of `struct console_stdio_s` that the file uses: the line
buffer, the bytes written to the output stream, and the input stream, given
as the outcomes of the successive `fgets` calls on it (`some s`: the call
stored the characters `s` and a NUL; `none`: the call returned NULL; past
the end of the list every call returns NULL). -/
structure console_stdio_s where
  cn_line : List Nat
  cn_outstream : List Nat
  cn_instream : List (Option (List Nat))

/-- The state of a run of `nsh_telnetlogin`: the console, the two local
arrays, and the calls made so far. -/
structure LoginState extends console_stdio_s where
  username : List Nat
  password : List Nat
  trace : List Event

/-- The pair `fputs(g_..., pstate->cn_outstream); fflush(pstate->cn_outstream);`. -/
def put (cfg : Config) (m : Msg) (st : LoginState) : LoginState :=
  { st with
    cn_outstream := fputs (cfg.text m) st.cn_outstream
    trace := st.trace ++ [Event.fputs m, Event.fflush] }

/-- A call `nsh_telnetecho(pstate, is_use)`. -/
def echo (is_use : Nat) (st : LoginState) : LoginState :=
  { st with
    cn_outstream := nsh_telnetecho st.cn_outstream is_use
    trace := st.trace ++ [Event.telnetecho is_use] }

/-- A call `fgets(pstate->cn_line, CONFIG_NSH_LINELEN, INSTREAM(pstate))`
and whether it returned a pointer other than NULL. -/
def fgets (st : LoginState) : Bool × LoginState :=
  match st.cn_instream with
  | [] => (false, { st with trace := st.trace ++ [Event.fgets false] })
  | none :: rest =>
    (false, { st with cn_instream := rest, trace := st.trace ++ [Event.fgets false] })
  | some s :: rest =>
    (true, { st with
      cn_line := s ++ 0 :: st.cn_line.drop (s.length + 1)
      cn_instream := rest
      trace := st.trace ++ [Event.fgets true] })

/-- The statements of the loop body from the username prompt to the end of
the parse of the username. -/
def read_username (cfg : Config) (st : LoginState) : Option LoginState :=
  let st := put cfg Msg.userprompt st
  match store st.username 0 0 with
  | none => none
  | some u =>
    match fgets { st with username := u } with
    | (false, st) => some st
    | (true, st) =>
      match nsh_telnettoken st.cn_line st.username 16 with
      | none => none
      | some (line, out) => some { st with cn_line := line, username := out }

/-- The statements of the loop body from the password prompt to the end of
the parse of the password, and whether `fgets` returned a line. -/
def read_password (cfg : Config) (st : LoginState) : Option (Bool × LoginState) :=
  let st := echo TELNET_NOTUSE_ECHO (put cfg Msg.passwordprompt st)
  match store st.password 0 0 with
  | none => none
  | some p =>
    match fgets { st with password := p } with
    | (false, st) => some (false, st)
    | (true, st) =>
      match nsh_telnettoken st.cn_line st.password 16 with
      | none => none
      | some (line, out) => some (true, { st with cn_line := line, password := out })

/-- The call of the verifier and the two branches on its outcome; `true`
says that `return OK` was reached.  The product
`CONFIG_NSH_LOGIN_FAILDELAY * 1000L` is passed to `usleep` as a
`useconds_t`, that is, modulo `2 ^ USECONDS_BITS`. -/
def check_credentials (cfg : Config) (verify : Nat → List Nat → List Nat → VerifyResult)
    (i : Nat) (st : LoginState) : Bool × LoginState :=
  let r := verify i st.username st.password
  let st := { st with trace := st.trace ++ [Event.verify st.username st.password r] }
  if r = VerifyResult.Match then
    (true, echo TELNET_USE_ECHO (put cfg Msg.loginsuccess st))
  else
    let st := put cfg Msg.badcredentials st
    if 0 < cfg.CONFIG_NSH_LOGIN_FAILDELAY then
      (false, { st with
        trace := st.trace ++
          [Event.usleep ((cfg.CONFIG_NSH_LOGIN_FAILDELAY * 1000) % 2 ^ USECONDS_BITS)] })
    else (false, st)

/-- One pass through the body of the loop of `nsh_telnetlogin`, the one
with index `i`; `true` says that the pass left the function with
`return OK`. -/
def login_attempt (cfg : Config) (verify : Nat → List Nat → List Nat → VerifyResult)
    (i : Nat) (st : LoginState) : Option (Bool × LoginState) :=
  match read_username cfg st with
  | none => none
  | some st =>
    match read_password cfg st with
    | none => none
    | some (false, st) => some (false, echo TELNET_USE_ECHO st)
    | some (true, st) =>
      match check_credentials cfg verify i st with
      | (true, st) => some (true, st)
      | (false, st) => some (false, echo TELNET_USE_ECHO st)

/-- The loop of `nsh_telnetlogin` from index `i` on, with `k` passes left
(`k` is `CONFIG_NSH_LOGIN_FAILCOUNT - i`), and the statements after it. -/
def login_loop (cfg : Config) (verify : Nat → List Nat → List Nat → VerifyResult) :
    Nat → Nat → LoginState → Option (Int × LoginState)
  | 0, _, st => some (-1, put cfg Msg.loginfailure st)
  | k + 1, i, st =>
    match login_attempt cfg verify i st with
    | none => none
    | some (true, st) => some (0, st)
    | some (false, st) => login_loop cfg verify k (i + 1) st

/-- The function `nsh_telnetlogin(pstate)`.  The verifier is given the index
of the pass and the two arrays; `stack` gives the bytes that the two local
arrays hold on entry.  The result is the returned value and the final
state, or `none` if an access left its array. -/
def nsh_telnetlogin (cfg : Config) (verify : Nat → List Nat → List Nat → VerifyResult)
    (pstate : console_stdio_s) (stack : Nat → Nat) : Option (Int × LoginState) :=
  login_loop cfg verify cfg.CONFIG_NSH_LOGIN_FAILCOUNT 0
    (put cfg Msg.telnetgreeting
      { toconsole_stdio_s := pstate
        username := (List.range 16).map stack
        password := (List.range 16).map (fun j => stack (16 + j))
        trace := [] })

/-- A sample build: the prompts `login: ` and `password: `, three allowed
attempts and no delay after a failure. -/
def sample_config : Config :=
  { g_telnetgreeting := [78, 83, 72, 10]
    g_userprompt := [108, 111, 103, 105, 110, 58, 32]
    g_passwordprompt := [112, 97, 115, 115, 119, 111, 114, 100, 58, 32]
    g_loginsuccess := [79, 75, 10]
    g_badcredentials := [73, 110, 118, 97, 108, 105, 100, 10]
    g_loginfailure := [70, 97, 105, 108, 101, 100, 10]
    CONFIG_NSH_LOGIN_FAILCOUNT := 3
    CONFIG_NSH_LOGIN_FAILDELAY := 0 }

/-- A sample console: an empty line buffer, nothing written yet, and an
input of the lines `alice`, `secret`, a failed read, `x`, `bob` and then
the end of the input. -/
def sample_console : console_stdio_s :=
  { cn_line := []
    cn_outstream := []
    cn_instream := [some [97, 108, 105, 99, 101, 10], some [115, 101, 99, 114, 101, 116, 10],
      none, some [120, 10], some [98, 111, 98, 10]] }

/-! ## The calls of one pass of the loop, as the specification lays them out -/

/-- Whether the next `fgets` call on an input returns a line. -/
def read_ok : List (Option (List Nat)) → Bool
  | some _ :: _ => true
  | _ => false

/-- The buffer after the token of a line is copied into it with the bound
`n`: the token and its NUL, cut to `n` bytes, lie over the start of the
buffer, and the bytes of the buffer beyond them are as they were. -/
def token_field (n : Nat) (buffer line : List Nat) : List Nat :=
  (token_of line ++ [0]).take n ++ buffer.drop ((token_of line ++ [0]).take n).length

/-- The calls of a pass up to the read of the password: username prompt,
read, password prompt, echo off, read. -/
def seg_read (b1 b2 : Bool) : List Event :=
  [Event.fputs Msg.userprompt, Event.fflush, Event.fgets b1,
    Event.fputs Msg.passwordprompt, Event.fflush,
    Event.telnetecho TELNET_NOTUSE_ECHO, Event.fgets b2]

/-- The calls of a pass in which the read of the password fails. -/
def seg_failed_read (b1 : Bool) : List Event :=
  seg_read b1 false ++ [Event.telnetecho TELNET_USE_ECHO]

/-- The calls of a pass in which the verifier reports `r`, which is not a
match; `d` is the configured delay. -/
def seg_nomatch (d : Nat) (b1 : Bool) (u p : List Nat) (r : VerifyResult) : List Event :=
  seg_read b1 true ++ [Event.verify u p r, Event.fputs Msg.badcredentials, Event.fflush]
    ++ (if 0 < d then [Event.usleep ((d * 1000) % 2 ^ USECONDS_BITS)] else [])
    ++ [Event.telnetecho TELNET_USE_ECHO]

/-- The calls of a pass in which the verifier reports a match. -/
def seg_match (b1 : Bool) (u p : List Nat) : List Event :=
  seg_read b1 true ++ [Event.verify u p VerifyResult.Match,
    Event.fputs Msg.loginsuccess, Event.fflush, Event.telnetecho TELNET_USE_ECHO]

/-- Whether a call is a call of the verifier. -/
def Event.is_verify : Event → Bool
  | Event.verify _ _ _ => true
  | _ => false

/-- Whether a call is a call of the verifier that reported a match. -/
def Event.is_match : Event → Bool
  | Event.verify _ _ VerifyResult.Match => true
  | _ => false

/-- Whether a call is a call of `usleep`. -/
def Event.is_usleep : Event → Bool
  | Event.usleep _ => true
  | _ => false

/-- Whether a call is a username prompt or a call of `nsh_telnetecho`. -/
def Event.is_prompt_or_echo : Event → Bool
  | Event.fputs Msg.userprompt => true
  | Event.telnetecho _ => true
  | _ => false

/-- The sequence username prompt, echo off, echo on, `m` times over. -/
def prompt_echo_cycles : Nat → List Event
  | 0 => []
  | m + 1 =>
    [Event.fputs Msg.userprompt, Event.telnetecho TELNET_NOTUSE_ECHO,
      Event.telnetecho TELNET_USE_ECHO] ++ prompt_echo_cycles m

/-- A call with the outcome of the verifier reduced to match or no match. -/
def Event.blur : Event → Event
  | Event.verify u p r =>
    Event.verify u p (if r = VerifyResult.Match then VerifyResult.Match else VerifyResult.NoMatch)
  | e => e

/-- The array `username` after the read of the username in a pass on the
input `ins` that starts with the array `u`: the array with a NUL in its
first byte and then, if the read gives a line, with the token of the line
copied into it. -/
def username_after (ins : List (Option (List Nat))) (u : List Nat) : List Nat :=
  match ins with
  | some s :: _ => token_field 16 (u.set 0 0) s
  | _ => u.set 0 0

/-- The array `password` after the read of the password in a pass on the
input `ins` that starts with the array `p`. -/
def password_after (ins : List (Option (List Nat))) (p : List Nat) : List Nat :=
  match ins.drop 1 with
  | some s :: _ => token_field 16 (p.set 0 0) s
  | _ => p.set 0 0

/-- The array `username` at the call of the verifier in a pass that starts
in the state `st`. -/
def attempt_username (st : LoginState) : List Nat :=
  username_after st.cn_instream st.username

/-- The array `password` after the read of the password in a pass that
starts in the state `st`. -/
def attempt_password (st : LoginState) : List Nat :=
  password_after st.cn_instream st.password

/-- The array `username` after the read of the username in the pass with
index `t` of a loop on the input `ins` that starts with the array `u` and
makes all the passes before. -/
def pass_username : List (Option (List Nat)) → List Nat → Nat → List Nat
  | ins, u, 0 => username_after ins u
  | ins, u, t + 1 => pass_username (ins.drop 2) (username_after ins u) t

/-- The array `password` after the read of the password in the pass with
index `t` of a loop on the input `ins` that starts with the array `p` and
makes all the passes before. -/
def pass_password : List (Option (List Nat)) → List Nat → Nat → List Nat
  | ins, p, 0 => password_after ins p
  | ins, p, t + 1 => pass_password (ins.drop 2) (password_after ins p) t

/-- The verifier of a build with fixed credentials: the two `strcmp` calls
of the `CONFIG_NSH_LOGIN_FIXED` branch, on the strings in the two arrays. -/
def fixed_verifier (username password : List Nat) :
    Nat → List Nat → List Nat → VerifyResult :=
  fun _ u p =>
    if cstr p = password ∧ cstr u = username then VerifyResult.Match
    else VerifyResult.NoMatch

/-- A sample console for a login at the second attempt: the lines `alice`,
`wrong`, `alice` and `secret`. -/
def sample_retry_console : console_stdio_s :=
  { cn_line := []
    cn_outstream := []
    cn_instream := [some [97, 108, 105, 99, 101, 10], some [119, 114, 111, 110, 103, 10],
      some [97, 108, 105, 99, 101, 10], some [115, 101, 99, 114, 101, 116, 10]] }

/-- A sample build with one allowed attempt and a delay of 5000000
milliseconds after a failure. -/
def long_delay_config : Config :=
  { g_telnetgreeting := [78, 83, 72, 10]
    g_userprompt := [108, 111, 103, 105, 110, 58, 32]
    g_passwordprompt := [112, 97, 115, 115, 119, 111, 114, 100, 58, 32]
    g_loginsuccess := [79, 75, 10]
    g_badcredentials := [73, 110, 118, 97, 108, 105, 100, 10]
    g_loginfailure := [70, 97, 105, 108, 101, 100, 10]
    CONFIG_NSH_LOGIN_FAILCOUNT := 1
    CONFIG_NSH_LOGIN_FAILDELAY := 5000000 }

/-- Whether the pass with index `i` that starts in the state `st` ends in
`return OK`: the password is read and the verifier reports a match. -/
def attempt_returns (verify : Nat → List Nat → List Nat → VerifyResult) (i : Nat)
    (st : LoginState) : Bool :=
  read_ok (st.cn_instream.drop 1) &&
    decide (verify i (attempt_username st) (attempt_password st) = VerifyResult.Match)

/-- The calls of the pass with index `i` that starts in the state `st`. -/
def attempt_trace (cfg : Config) (verify : Nat → List Nat → List Nat → VerifyResult)
    (i : Nat) (st : LoginState) : List Event :=
  if read_ok (st.cn_instream.drop 1) then
    if verify i (attempt_username st) (attempt_password st) = VerifyResult.Match then
      seg_match (read_ok st.cn_instream) (attempt_username st) (attempt_password st)
    else
      seg_nomatch cfg.CONFIG_NSH_LOGIN_FAILDELAY (read_ok st.cn_instream)
        (attempt_username st) (attempt_password st)
        (verify i (attempt_username st) (attempt_password st))
  else seg_failed_read (read_ok st.cn_instream)

/-- A sample state at the start of a pass: nothing written yet, the given
input, and two arrays of sixteen stale bytes. -/
def sample_state (input : List (Option (List Nat))) : LoginState :=
  { cn_line := []
    cn_outstream := []
    cn_instream := input
    username := List.replicate 16 85
    password := List.replicate 16 85
    trace := [] }

/-- The calls of a pass after which the loop goes on: a pass with a failed
read of the password, or a pass in which the verifier reports no match. -/
def retry_seg (d : Nat) (seg : List Event) : Prop :=
  ∃ b1, seg = seg_failed_read b1 ∨
    ∃ u p r, r ≠ VerifyResult.Match ∧ seg = seg_nomatch d b1 u p r

/-- A state with the outcomes of the verifier in its calls reduced to match
or no match. -/
def LoginState.blur (st : LoginState) : LoginState :=
  { st with trace := st.trace.map Event.blur }

/-- A verifier with its outcome reduced to match or no match. -/
def blur_verifier (verify : Nat → List Nat → List Nat → VerifyResult) :
    Nat → List Nat → List Nat → VerifyResult :=
  fun i u p =>
    if verify i u p = VerifyResult.Match then VerifyResult.Match else VerifyResult.NoMatch

/-! ## Lemmas on the C library routines -/

theorem isspace_ne_zero {c : Nat} (h : isspace c = true) : c ≠ 0 := by
  rintro rfl; simp [isspace] at h

theorem isspace_ne_quote {c : Nat} (h : isspace c = true) : c ≠ QUOTE := by
  rintro rfl; simp [isspace, QUOTE] at h

theorem cstr_append_zero (s post : List Nat) (hs : ∀ c ∈ s, c ≠ 0) :
    cstr (s ++ 0 :: post) = s := by
  induction s with
  | nil => simp [cstr]
  | cons c s ih =>
    have hc : c ≠ 0 := hs c (by simp)
    have := ih (fun d hd => hs d (by simp [hd]))
    simp only [cstr] at this
    simp [cstr, List.takeWhile_cons, hc, this]

theorem cstr_ne_zero (line : List Nat) : ∀ c ∈ cstr line, c ≠ 0 := by
  intro c hc
  have := List.mem_takeWhile_imp hc
  simpa using this

theorem cstr_split (line : List Nat) (h : 0 ∈ line) :
    ∃ post, line = cstr line ++ 0 :: post := by
  induction line with
  | nil => simp at h
  | cons c l ih =>
    by_cases hc : c = 0
    · subst hc; exact ⟨l, by simp [cstr]⟩
    · have hl : 0 ∈ l := by
        rcases List.mem_cons.1 h with h | h
        · exact absurd h.symm hc
        · exact h
      obtain ⟨post, hp⟩ := ih hl
      refine ⟨post, ?_⟩
      have : cstr (c :: l) = c :: cstr l := by simp [cstr, List.takeWhile_cons, hc]
      rw [this, List.cons_append, ← hp]

theorem strncpy_eq (dest tok post : List Nat) (n : Nat) (htok : ∀ c ∈ tok, c ≠ 0)
    (h : n ≤ dest.length) :
    strncpy dest (tok ++ 0 :: post) n
      = some ((tok ++ [0]).take n ++ dest.drop ((tok ++ [0]).take n).length) := by
  induction tok generalizing dest n with
  | nil =>
    cases n with
    | zero => simp [strncpy]
    | succ n =>
      cases dest with
      | nil => simp at h
      | cons d dest => simp [strncpy]
  | cons c tok ih =>
    have hc : c ≠ 0 := htok c (by simp)
    have htok2 : ∀ d ∈ tok, d ≠ 0 := fun d hd => htok d (by simp [hd])
    cases n with
    | zero => simp [strncpy]
    | succ n =>
      cases dest with
      | nil => simp at h
      | cons d dest =>
        simp only [List.length_cons, Nat.add_le_add_iff_right] at h
        simp [strncpy, hc, ih dest n htok2 h]

/-! ## Lemmas on the two loops of nsh_telnettoken -/

theorem token_start_skip (ws rest : List Nat) (k : Nat)
    (hws : ∀ c ∈ ws, isspace c = true) :
    token_start (ws ++ rest) k = token_start rest (k + ws.length) := by
  induction ws generalizing k with
  | nil => simp
  | cons c ws ih =>
    have hc : isspace c = true := hws c (by simp)
    have h0 : c ≠ 0 := isspace_ne_zero hc
    have hq : c ≠ QUOTE := isspace_ne_quote hc
    have := ih (k + 1) (fun d hd => hws d (by simp [hd]))
    have e : k + (c :: ws).length = k + 1 + ws.length := by simp; omega
    rw [e, ← this]
    simp [token_start, h0, hq, hc]

theorem token_end_skip (quoted : Bool) (tok rest : List Nat) (k : Nat)
    (htok : ∀ c ∈ tok, c ≠ 0 ∧ (if quoted then c ≠ QUOTE else isspace c = false)) :
    token_end quoted (tok ++ rest) k = token_end quoted rest (k + tok.length) := by
  induction tok generalizing k with
  | nil => simp
  | cons c tok ih =>
    obtain ⟨h0, hc⟩ := htok c (by simp)
    have := ih (k + 1) (fun d hd => htok d (by simp [hd]))
    have e : k + (c :: tok).length = k + 1 + tok.length := by simp; omega
    rw [e, ← this]
    cases quoted
    · simp at hc
      simp [token_end, h0, hc]
    · simp at hc
      simp [token_end, h0, hc]

theorem token_end_stop (quoted : Bool) (t : Nat) (post : List Nat) (k : Nat)
    (ht : t = 0 ∨ (if quoted then t = QUOTE else isspace t = true)) :
    token_end quoted (t :: post) k = some k := by
  by_cases h0 : t = 0
  · simp [token_end, h0]
  · rcases ht with ht | ht
    · exact absurd ht h0
    · cases quoted
      · simp at ht
        simp [token_end, h0, ht]
      · simp at ht
        simp [token_end, h0, ht]

/-- The run of `nsh_telnettoken` on a line cut into the part before the
token, the token, the terminating character and the rest. -/
theorem nsh_telnettoken_split (pre tok post buffer : List Nat) (t n : Nat) (quoted : Bool)
    (hstart : token_start (pre ++ tok ++ t :: post) 0 = some (pre.length, quoted))
    (htok : ∀ c ∈ tok, c ≠ 0 ∧ (if quoted then c ≠ QUOTE else isspace c = false))
    (ht : t = 0 ∨ (if quoted then t = QUOTE else isspace t = true))
    (hn : n ≤ buffer.length) :
    nsh_telnettoken (pre ++ tok ++ t :: post) buffer n
      = some (pre ++ tok ++ 0 :: post,
          (tok ++ [0]).take n ++ buffer.drop ((tok ++ [0]).take n).length) := by
  have hdrop : (pre ++ tok ++ t :: post).drop pre.length = tok ++ t :: post := by
    rw [List.append_assoc, List.drop_left]
  have hend : token_end quoted (tok ++ t :: post) pre.length = some (pre.length + tok.length) := by
    rw [token_end_skip quoted tok _ _ htok, token_end_stop quoted t post _ ht]
  have hstore : store (pre ++ tok ++ t :: post) (pre.length + tok.length) 0
      = some (pre ++ tok ++ 0 :: post) := by
    have hlen : pre.length + tok.length = (pre ++ tok).length := by simp
    unfold store
    rw [if_pos (by simp), hlen, List.set_append_right _ _ (le_refl _)]
    simp
  have hdrop2 : (pre ++ tok ++ 0 :: post).drop pre.length = tok ++ 0 :: post := by
    rw [List.append_assoc, List.drop_left]
  have hcpy := strncpy_eq buffer tok post n (fun c hc => (htok c hc).1) hn
  simp only [nsh_telnettoken, hstart, hdrop, hend, hstore, hdrop2, hcpy]

/-! ## The line cut at the token of the specification -/

theorem dropWhile_head_false (p : Nat → Bool) (l : List Nat) (c : Nat) (r : List Nat)
    (h : l.dropWhile p = c :: r) : p c = false := by
  induction l with
  | nil => simp at h
  | cons d l ih =>
    by_cases hd : p d = true
    · rw [List.dropWhile_cons_of_pos hd] at h; exact ih h
    · rw [List.dropWhile_cons_of_neg hd] at h
      injection h with h1 _
      subst h1; simpa using hd

/-- What stops a run of characters: the first character after the run, in
the array `run ++ rest ++ 0 :: post`, either is the NUL or fails `p`. -/
theorem run_stop (p : Nat → Bool) (l post : List Nat) :
    ∃ t post2, l.dropWhile p ++ 0 :: post = t :: post2 ∧ (t = 0 ∨ p t = false) := by
  cases h : l.dropWhile p with
  | nil => exact ⟨0, post, by simp, Or.inl rfl⟩
  | cons c r => exact ⟨c, r ++ 0 :: post, by simp, Or.inr (dropWhile_head_false p l c r h)⟩

/-- Every line that holds a NUL is cut by the specification's token into
the part before the token, the token, the terminating character and the
rest, and the first loop of `nsh_telnettoken` stops at the token. -/
theorem token_split (line : List Nat) (h0 : 0 ∈ line) :
    ∃ pre post t quoted,
      line = pre ++ token_of line ++ t :: post ∧
      pre.length = token_offset line ∧
      token_start line 0 = some (pre.length, quoted) ∧
      (∀ c ∈ token_of line, c ≠ 0 ∧ (if quoted then c ≠ QUOTE else isspace c = false)) ∧
      (t = 0 ∨ (if quoted then t = QUOTE else isspace t = true)) := by
  obtain ⟨post, hp⟩ := cstr_split line h0
  have hne := cstr_ne_zero line
  generalize hs : cstr line = s at hp hne
  have hsplit : s = s.takeWhile isspace ++ s.dropWhile isspace :=
    (List.takeWhile_append_dropWhile isspace s).symm
  have hws : ∀ c ∈ s.takeWhile isspace, isspace c = true :=
    fun c hc => List.mem_takeWhile_imp hc
  cases hd : s.dropWhile isspace with
  | nil =>
    have htok : token_of line = [] := by simp [token_of, hs, hd]
    have hoff : token_offset line = (s.takeWhile isspace).length := by
      simp [token_offset, hs, hd]
    have hline : line = s.takeWhile isspace ++ 0 :: post := by
      rw [hd, List.append_nil] at hsplit
      rw [← hsplit]; exact hp
    refine ⟨s.takeWhile isspace, post, 0, false, ?_, hoff.symm, ?_, ?_, Or.inl rfl⟩
    · rw [htok, List.append_nil]; exact hline
    · rw [hline, token_start_skip _ _ _ hws]
      simp [token_start]
    · rw [htok]; simp
  | cons c r =>
    have hc : isspace c = false := dropWhile_head_false isspace s c r hd
    have hmem : ∀ d ∈ c :: r, d ≠ 0 := fun d hd2 =>
      hne d (by rw [hsplit, hd]; exact List.mem_append_right _ hd2)
    have hc0 : c ≠ 0 := hmem c (by simp)
    have hline : line = s.takeWhile isspace ++ (c :: r ++ 0 :: post) := by
      rw [hp]
      conv => lhs; rw [hsplit, hd]
      simp
    by_cases hq : c = QUOTE
    · have htok : token_of line = r.takeWhile (fun d => d != QUOTE) := by
        simp [token_of, hs, hd, hq]
      have hoff : token_offset line = (s.takeWhile isspace).length + 1 := by
        simp [token_offset, hs, hd, hq]
      obtain ⟨t, post2, hrest, ht⟩ := run_stop (fun d => d != QUOTE) r post
      have hline2 : line = (s.takeWhile isspace ++ [c]) ++
          r.takeWhile (fun d => d != QUOTE) ++ t :: post2 := by
        rw [hline, ← hrest, List.append_assoc, List.append_assoc, List.singleton_append,
          ← List.append_assoc (r.takeWhile _), List.takeWhile_append_dropWhile]
        rfl
      refine ⟨s.takeWhile isspace ++ [c], post2, t, true, ?_, ?_, ?_, ?_, ?_⟩
      · rw [htok]; exact hline2
      · rw [hoff]; simp
      · rw [hline, token_start_skip _ _ _ hws]
        simp [token_start, hq, QUOTE]
      · rw [htok]
        intro d hd2
        refine ⟨hmem d (List.mem_cons_of_mem _ ((List.takeWhile_sublist _).subset hd2)), ?_⟩
        simpa using List.mem_takeWhile_imp hd2
      · rcases ht with ht | ht
        · exact Or.inl ht
        · exact Or.inr (by simpa using ht)
    · have htok : token_of line = (c :: r).takeWhile (fun d => !isspace d) := by
        simp [token_of, hs, hd, hq]
      have hoff : token_offset line = (s.takeWhile isspace).length := by
        simp [token_offset, hs, hd, hq]
      obtain ⟨t, post2, hrest, ht⟩ := run_stop (fun d => !isspace d) (c :: r) post
      have hline2 : line = s.takeWhile isspace ++
          (c :: r).takeWhile (fun d => !isspace d) ++ t :: post2 := by
        rw [hline, ← hrest, List.append_assoc,
          ← List.append_assoc ((c :: r).takeWhile _), List.takeWhile_append_dropWhile]
      refine ⟨s.takeWhile isspace, post2, t, false, ?_, hoff.symm, ?_, ?_, ?_⟩
      · rw [htok]; exact hline2
      · rw [hline, token_start_skip _ _ _ hws]
        simp [token_start, hq, hc, hc0]
      · rw [htok]
        intro d hd2
        refine ⟨hmem d ((List.takeWhile_sublist _).subset hd2), ?_⟩
        simpa using List.mem_takeWhile_imp hd2
      · rcases ht with ht | ht
        · exact Or.inl ht
        · exact Or.inr (by simpa using ht)

/-- The run of `nsh_telnettoken` on any line that holds a NUL, into any
buffer of at least `n` bytes: the line gets a NUL stored at the end of the
token, and the buffer gets the token and its NUL, cut to `n` bytes, over its
start. -/
theorem nsh_telnettoken_eq (line buffer : List Nat) (n : Nat) (h0 : 0 ∈ line)
    (hn : n ≤ buffer.length) :
    nsh_telnettoken line buffer n
      = some (line.set (token_offset line + (token_of line).length) 0,
          token_field n buffer line) := by
  obtain ⟨pre, post, t, quoted, hline, hoff, hstart, htok, ht⟩ := token_split line h0
  have hrun := nsh_telnettoken_split pre (token_of line) post buffer t n quoted
    (by rw [← hline]; exact hstart) htok ht hn
  rw [← hline] at hrun
  rw [hrun, ← hoff]
  unfold token_field
  generalize token_of line = tok at hline ⊢
  have hlen : pre.length + tok.length = (pre ++ tok).length := by simp
  have hset : line.set (pre.length + tok.length) 0 = pre ++ tok ++ 0 :: post := by
    rw [hline, hlen, List.set_append_right _ _ (le_refl _)]
    simp
  rw [hset]

/-! ## Consequences of the run of nsh_telnettoken -/

theorem token_field_of_lt (n : Nat) (buffer line : List Nat)
    (h : (token_of line).length < n) :
    token_field n buffer line
      = token_of line ++ 0 :: buffer.drop ((token_of line).length + 1) := by
  unfold token_field
  rw [List.take_of_length_le (by simp; omega)]
  simp

theorem token_field_of_le (n : Nat) (buffer line : List Nat)
    (h : n ≤ (token_of line).length) :
    token_field n buffer line = (token_of line).take n ++ buffer.drop n := by
  unfold token_field
  rw [List.take_append_of_le_length h]
  simp [Nat.min_eq_left h]

theorem token_field_take_succ (n : Nat) (buffer line : List Nat)
    (h : (token_of line).length < n) :
    (token_field n buffer line).take ((token_of line).length + 1) = token_of line ++ [0] := by
  rw [token_field_of_lt n buffer line h]
  have : token_of line ++ 0 :: buffer.drop ((token_of line).length + 1)
      = (token_of line ++ [0]) ++ buffer.drop ((token_of line).length + 1) := by simp
  rw [this, List.take_append_of_le_length (by simp), List.take_of_length_le (by simp)]

theorem token_field_length (n : Nat) (buffer line : List Nat) (hn : n ≤ buffer.length) :
    (token_field n buffer line).length = buffer.length := by
  unfold token_field
  simp only [List.length_append, List.length_take, List.length_drop, List.length_singleton]
  omega

theorem token_of_unquoted (line : List Nat) (c : Nat) (r : List Nat)
    (hfirst : (cstr line).dropWhile isspace = c :: r) (hq : c ≠ QUOTE) :
    token_of line = (c :: r).takeWhile (fun d => !isspace d) := by
  simp [token_of, hfirst, hq]

theorem token_of_quoted (line : List Nat) (r : List Nat)
    (hfirst : (cstr line).dropWhile isspace = QUOTE :: r) :
    token_of line = r.takeWhile (fun d => d != QUOTE) := by
  simp [token_of, hfirst]

theorem token_of_blank (line : List Nat) (hws : ∀ c ∈ cstr line, isspace c = true) :
    token_of line = [] := by
  have : (cstr line).dropWhile isspace = [] := by
    rw [List.dropWhile_eq_nil_iff]; exact hws
  simp [token_of, this]

theorem token_of_ne_zero (line : List Nat) : ∀ c ∈ token_of line, c ≠ 0 := by
  intro c hc
  have hsub : ∀ d ∈ (cstr line).dropWhile isspace, d ≠ 0 := fun d hd =>
    cstr_ne_zero line d ((List.dropWhile_sublist _).subset hd)
  unfold token_of at hc
  split at hc
  · simp at hc
  · rename_i c0 r heq
    rw [heq] at hsub
    split at hc
    · exact hsub c (List.mem_cons_of_mem _ ((List.takeWhile_sublist _).subset hc))
    · exact hsub c ((List.takeWhile_sublist _).subset hc)

theorem token_start_append (l post : List Nat) (k : Nat) (r : Nat × Bool)
    (h : token_start l k = some r) : token_start (l ++ post) k = some r := by
  induction l generalizing k with
  | nil => simp [token_start] at h
  | cons c l ih =>
    simp only [List.cons_append, token_start] at h ⊢
    split_ifs at h ⊢ with h1 h2 h3
    · exact h
    · exact h
    · exact h
    · exact ih _ h

/-! ## The properties of nsh_telnettoken -/

/-- C1: on a line that holds a NUL and whose first character that is not
whitespace exists and is not a double quote, with a capacity above the length
of the token, `nsh_telnettoken` leaves in the buffer the longest run of
characters other than whitespace that starts at that character, followed by
a NUL. -/
theorem telnettoken_unquoted (line buffer : List Nat) (n c : Nat) (r : List Nat)
    (h0 : 0 ∈ line)
    (hfirst : (cstr line).dropWhile isspace = c :: r)
    (hq : c ≠ QUOTE)
    (hlen : ((c :: r).takeWhile (fun d => !isspace d)).length < n)
    (hn : n ≤ buffer.length) :
    ∃ line2 out, nsh_telnettoken line buffer n = some (line2, out) ∧
      out.take (((c :: r).takeWhile (fun d => !isspace d)).length + 1)
        = (c :: r).takeWhile (fun d => !isspace d) ++ [0] := by
  have htok := token_of_unquoted line c r hfirst hq
  refine ⟨_, _, nsh_telnettoken_eq line buffer n h0 hn, ?_⟩
  rw [← htok] at hlen ⊢
  exact token_field_take_succ n buffer line hlen

/-- The instance of C1 at the line `alice extra`: the buffer gets `alice`
and a NUL. -/
theorem telnettoken_unquoted_witness :
    ∃ line2 out,
      nsh_telnettoken [97, 108, 105, 99, 101, 32, 101, 120, 116, 114, 97, 0]
        (List.replicate 16 85) 16 = some (line2, out) ∧
      out.take (([97, 108, 105, 99, 101, 32, 101, 120, 116, 114, 97].takeWhile
          (fun d => !isspace d)).length + 1)
        = [97, 108, 105, 99, 101, 32, 101, 120, 116, 114, 97].takeWhile
          (fun d => !isspace d) ++ [0] :=
  telnettoken_unquoted [97, 108, 105, 99, 101, 32, 101, 120, 116, 114, 97, 0]
    (List.replicate 16 85) 16 97 [108, 105, 99, 101, 32, 101, 120, 116, 114, 97]
    (by decide) (by decide) (by decide) (by decide) (by decide)

/-- C2: on a line that holds a NUL and whose first character that is not
whitespace is a double quote, with a capacity above the length of the token,
`nsh_telnettoken` leaves in the buffer the characters between that quote and
the next quote, or the end of the line if there is no further quote,
followed by a NUL; whitespace among them is kept and no quote is part of
the result. -/
theorem telnettoken_quoted (line buffer : List Nat) (n : Nat) (r : List Nat)
    (h0 : 0 ∈ line)
    (hfirst : (cstr line).dropWhile isspace = QUOTE :: r)
    (hlen : (r.takeWhile (fun d => d != QUOTE)).length < n)
    (hn : n ≤ buffer.length) :
    ∃ line2 out, nsh_telnettoken line buffer n = some (line2, out) ∧
      out.take ((r.takeWhile (fun d => d != QUOTE)).length + 1)
        = r.takeWhile (fun d => d != QUOTE) ++ [0] := by
  have htok := token_of_quoted line r hfirst
  refine ⟨_, _, nsh_telnettoken_eq line buffer n h0 hn, ?_⟩
  rw [← htok] at hlen ⊢
  exact token_field_take_succ n buffer line hlen

/-- The instance of C2 at the line `"bob smith" x`: the buffer gets
`bob smith` and a NUL. -/
theorem telnettoken_quoted_witness :
    ∃ line2 out,
      nsh_telnettoken [34, 98, 111, 98, 32, 115, 109, 105, 116, 104, 34, 32, 120, 0]
        (List.replicate 16 85) 16 = some (line2, out) ∧
      out.take (([98, 111, 98, 32, 115, 109, 105, 116, 104, 34, 32, 120].takeWhile
          (fun d => d != QUOTE)).length + 1)
        = [98, 111, 98, 32, 115, 109, 105, 116, 104, 34, 32, 120].takeWhile
          (fun d => d != QUOTE) ++ [0] :=
  telnettoken_quoted [34, 98, 111, 98, 32, 115, 109, 105, 116, 104, 34, 32, 120, 0]
    (List.replicate 16 85) 16 [98, 111, 98, 32, 115, 109, 105, 116, 104, 34, 32, 120]
    (by decide) (by decide) (by decide) (by decide)

/-- C3: on a line that holds a NUL before which there is nothing but
whitespace, with a capacity of at least one, `nsh_telnettoken` leaves a NUL
in the first byte of the buffer. -/
theorem telnettoken_blank (line buffer : List Nat) (n : Nat)
    (h0 : 0 ∈ line)
    (hws : ∀ c ∈ cstr line, isspace c = true)
    (h1 : 1 ≤ n)
    (hn : n ≤ buffer.length) :
    ∃ line2 out, nsh_telnettoken line buffer n = some (line2, out) ∧
      out.head? = some 0 := by
  have htok := token_of_blank line hws
  refine ⟨_, _, nsh_telnettoken_eq line buffer n h0 hn, ?_⟩
  rw [token_field_of_lt n buffer line (by rw [htok]; exact h1), htok]
  rfl

/-- The instance of C3 at a line of a space, a tab and a newline. -/
theorem telnettoken_blank_witness :
    ∃ line2 out,
      nsh_telnettoken [32, 9, 10, 0] (List.replicate 16 85) 16 = some (line2, out) ∧
      out.head? = some 0 :=
  telnettoken_blank [32, 9, 10, 0] (List.replicate 16 85) 16
    (by decide) (by decide) (by decide) (by decide)

/-- C4: on a line whose token is longer than the capacity `n`,
`nsh_telnettoken` sets the first `n` bytes of the buffer to the first `n`
bytes of the token, none of which is a NUL, and leaves the bytes of the
buffer from index `n` on as they were. -/
theorem telnettoken_truncates (line buffer : List Nat) (n : Nat)
    (h0 : 0 ∈ line)
    (hlen : n < (token_of line).length)
    (hn : n ≤ buffer.length) :
    ∃ line2 out, nsh_telnettoken line buffer n = some (line2, out) ∧
      out.take n = (token_of line).take n ∧
      (∀ c ∈ out.take n, c ≠ 0) ∧
      out.drop n = buffer.drop n ∧
      out.length = buffer.length := by
  refine ⟨_, _, nsh_telnettoken_eq line buffer n h0 hn, ?_⟩
  rw [token_field_of_le n buffer line (Nat.le_of_lt hlen)]
  have hl : ((token_of line).take n).length = n := by
    rw [List.length_take]; omega
  have htake : ((token_of line).take n ++ buffer.drop n).take n = (token_of line).take n := by
    rw [List.take_append_of_le_length (by omega), List.take_take, Nat.min_self]
  refine ⟨htake, ?_, ?_, ?_⟩
  · rw [htake]
    exact fun c hc => token_of_ne_zero line c ((List.take_sublist _ _).subset hc)
  · rw [List.drop_append_of_le_length (by omega)]
    simp [List.drop_eq_nil_of_le, hl]
  · simp [hl]; omega

/-- The instance of C4 at the line `abcdef` with a capacity of four. -/
theorem telnettoken_truncates_witness :
    ∃ line2 out,
      nsh_telnettoken [97, 98, 99, 100, 101, 102, 0] [1, 2, 3, 4, 5, 6] 4
        = some (line2, out) ∧
      out.take 4 = (token_of [97, 98, 99, 100, 101, 102, 0]).take 4 ∧
      (∀ c ∈ out.take 4, c ≠ 0) ∧
      out.drop 4 = [1, 2, 3, 4, 5, 6].drop 4 ∧
      out.length = [1, 2, 3, 4, 5, 6].length :=
  telnettoken_truncates [97, 98, 99, 100, 101, 102, 0] [1, 2, 3, 4, 5, 6] 4
    (by decide) (by decide) (by decide)

/-- C5, as stated, fails: on the line `abc` with a capacity of four the
length of the token and one more is four, and the fourth byte of the buffer
is the NUL terminator, not a byte of the token. -/
theorem telnettoken_fill_counterexample :
    4 ≤ (token_of [97, 98, 99, 0]).length + 1 ∧
    nsh_telnettoken [97, 98, 99, 0] [1, 1, 1, 1] 4
      = some ([97, 98, 99, 0], [97, 98, 99, 0]) ∧
    (token_of [97, 98, 99, 0])[3]? = none ∧
    ([97, 98, 99, 0] : List Nat)[3]? = some 0 := by
  decide

/-- C5, amended: on a line whose token is at least as long as the capacity
`n`, after `nsh_telnettoken` every one of the first `n` bytes of the buffer
is the byte of the token at the same index, and none of them is a NUL. -/
theorem telnettoken_fill (line buffer : List Nat) (n : Nat)
    (h0 : 0 ∈ line)
    (hlen : n ≤ (token_of line).length)
    (hn : n ≤ buffer.length) :
    ∃ line2 out, nsh_telnettoken line buffer n = some (line2, out) ∧
      ∀ i, i < n → out[i]? = (token_of line)[i]? ∧ out[i]? ≠ some 0 := by
  refine ⟨_, _, nsh_telnettoken_eq line buffer n h0 hn, ?_⟩
  rw [token_field_of_le n buffer line hlen]
  intro i hi
  have hl : ((token_of line).take n).length = n := by
    rw [List.length_take]; omega
  have hget : ((token_of line).take n ++ buffer.drop n)[i]? = (token_of line)[i]? := by
    rw [List.getElem?_append_left (by omega), List.getElem?_take_of_lt hi]
  refine ⟨hget, ?_⟩
  rw [hget]
  intro h
  exact token_of_ne_zero line 0 (List.getElem?_mem h) rfl

/-- The instance of the amended C5 at the line `abcd` with a capacity of
four. -/
theorem telnettoken_fill_witness :
    ∃ line2 out,
      nsh_telnettoken [97, 98, 99, 100, 0] [1, 1, 1, 1] 4 = some (line2, out) ∧
      ∀ i, i < 4 → out[i]? = (token_of [97, 98, 99, 100, 0])[i]? ∧ out[i]? ≠ some 0 :=
  telnettoken_fill [97, 98, 99, 100, 0] [1, 1, 1, 1] 4 (by decide) (by decide) (by decide)

/-- C6: on a line whose token is shorter than the capacity `n`, the copy
leaves the bytes of the buffer beyond the copied token untouched: after
`nsh_telnettoken` the byte at the index of the length of the token is the
NUL, and every byte of the buffer at a higher index is as it was before the
call. -/
theorem telnettoken_rest (line buffer : List Nat) (n : Nat)
    (h0 : 0 ∈ line)
    (hlen : (token_of line).length < n)
    (hn : n ≤ buffer.length) :
    ∃ line2 out, nsh_telnettoken line buffer n = some (line2, out) ∧
      out[(token_of line).length]? = some 0 ∧
      (∀ i, (token_of line).length < i → i < n → out[i]? = buffer[i]?) ∧
      (∀ i, n ≤ i → out[i]? = buffer[i]?) := by
  refine ⟨_, _, nsh_telnettoken_eq line buffer n h0 hn, ?_⟩
  rw [token_field_of_lt n buffer line hlen]
  generalize token_of line = tok at hlen
  have key : ∀ i, tok.length < i →
      (tok ++ 0 :: buffer.drop (tok.length + 1))[i]? = buffer[i]? := by
    intro i hi
    obtain ⟨m, rfl⟩ : ∃ m, i = tok.length + 1 + m := ⟨i - (tok.length + 1), by omega⟩
    rw [List.getElem?_append_right (by omega)]
    have : tok.length + 1 + m - tok.length = m + 1 := by omega
    rw [this, List.getElem?_cons_succ, List.getElem?_drop]
  refine ⟨?_, fun i h1 _ => key i h1, fun i h1 => key i (by omega)⟩
  rw [List.getElem?_append_right (le_refl _)]
  simp

/-- The instance of C6 at the line `ab` with a capacity of five in a buffer
of six bytes. -/
theorem telnettoken_rest_witness :
    ∃ line2 out,
      nsh_telnettoken [97, 98, 0] [7, 7, 7, 7, 7, 7] 5 = some (line2, out) ∧
      out[(token_of [97, 98, 0]).length]? = some 0 ∧
      (∀ i, (token_of [97, 98, 0]).length < i → i < 5 →
        out[i]? = ([7, 7, 7, 7, 7, 7] : List Nat)[i]?) ∧
      (∀ i, 5 ≤ i → out[i]? = ([7, 7, 7, 7, 7, 7] : List Nat)[i]?) :=
  telnettoken_rest [97, 98, 0] [7, 7, 7, 7, 7, 7] 5 (by decide) (by decide) (by decide)

/-- C7: `nsh_telnettoken` stays inside its buffers.  For a line cut at a
NUL (the first one, when `pre` holds none) and a buffer of at least `n`
bytes, the run on the line up to that NUL alone and on the first `n` bytes
of the buffer alone reaches no byte outside them, and the run on the whole
line and buffer gives the same result and leaves all further bytes as they
were. -/
theorem telnettoken_in_bounds (pre post buffer : List Nat) (n : Nat)
    (hn : n ≤ buffer.length) :
    ∃ line2 out,
      nsh_telnettoken (pre ++ [0]) (buffer.take n) n = some (line2, out) ∧
      nsh_telnettoken (pre ++ 0 :: post) buffer n
        = some (line2 ++ post, out ++ buffer.drop n) := by
  obtain ⟨p, q, t, quoted, hline, _, hstart, htok, ht⟩ :=
    token_split (pre ++ [0]) (by simp)
  generalize token_of (pre ++ [0]) = tok at hline htok
  have hline2 : pre ++ 0 :: post = p ++ tok ++ t :: (q ++ post) := by
    have : pre ++ 0 :: post = (pre ++ [0]) ++ post := by simp
    rw [this, hline]; simp
  have hstart2 : token_start (p ++ tok ++ t :: (q ++ post)) 0 = some (p.length, quoted) := by
    rw [← hline2]
    have : pre ++ 0 :: post = (pre ++ [0]) ++ post := by simp
    rw [this]
    exact token_start_append _ _ _ _ hstart
  have hn1 : n ≤ (buffer.take n).length := by rw [List.length_take]; omega
  have hrun1 := nsh_telnettoken_split p tok q (buffer.take n) t n quoted
    (by rw [← hline]; exact hstart) htok ht hn1
  have hrun2 := nsh_telnettoken_split p tok (q ++ post) buffer t n quoted hstart2 htok ht hn
  rw [← hline] at hrun1
  rw [← hline2] at hrun2
  refine ⟨_, _, hrun1, ?_⟩
  rw [hrun2]
  have hm : ((tok ++ [0]).take n).length ≤ n := by
    rw [List.length_take]; omega
  have hdrop : (buffer.take n).drop ((tok ++ [0]).take n).length ++ buffer.drop n
      = buffer.drop ((tok ++ [0]).take n).length := by
    generalize ((tok ++ [0]).take n).length = m at hm
    conv => rhs; rw [← List.take_append_drop n buffer]
    rw [List.drop_append_of_le_length (by rw [List.length_take]; omega)]
  simp only [List.append_assoc, hdrop, List.cons_append]

/-- The instance of C7 at the line `ab c` followed by two stale bytes, with
a capacity of four in a buffer of six bytes. -/
theorem telnettoken_in_bounds_witness :
    ∃ line2 out,
      nsh_telnettoken ([97, 98, 32, 99] ++ [0]) (([1, 2, 3, 4, 5, 6] : List Nat).take 4) 4
        = some (line2, out) ∧
      nsh_telnettoken ([97, 98, 32, 99] ++ 0 :: [9, 9]) [1, 2, 3, 4, 5, 6] 4
        = some (line2 ++ [9, 9], out ++ ([1, 2, 3, 4, 5, 6] : List Nat).drop 4) :=
  telnettoken_in_bounds [97, 98, 32, 99] [9, 9] [1, 2, 3, 4, 5, 6] 4 (by decide)

/-! ## The properties of nsh_telnetecho -/

/-- C8: the array that `nsh_telnetecho` builds is IAC (255), the verb, 1, 0,
and the verb is WILL (251) for `TELNET_USE_ECHO` (1) and DO (253) for
`TELNET_NOTUSE_ECHO` (0). -/
theorem telnetecho_frame :
    telnetecho_optbuf TELNET_USE_ECHO = [TELNET_IAC, TELNET_WILL, 1, 0] ∧
    telnetecho_optbuf TELNET_NOTUSE_ECHO = [TELNET_IAC, TELNET_DO, 1, 0] ∧
    TELNET_USE_ECHO = 1 ∧ TELNET_NOTUSE_ECHO = 0 ∧
    TELNET_IAC = 255 ∧ TELNET_WILL = 251 ∧ TELNET_DO = 253 := by
  decide

/-- C9, as stated, fails: a call of `nsh_telnetecho` with the flag set
appends the three bytes 255, 251, 1 to an empty stream, not the four bytes
of the array. -/
theorem telnetecho_bytes_counterexample :
    nsh_telnetecho [] TELNET_USE_ECHO = [255, 251, 1] ∧
    nsh_telnetecho [] TELNET_USE_ECHO ≠ [] ++ telnetecho_optbuf TELNET_USE_ECHO := by
  decide

/-- C9, amended: for every value of the flag, a call of `nsh_telnetecho`
appends to the output stream the three bytes 255, the verb, 1, which are
the array up to its NUL. -/
theorem telnetecho_bytes (cn_outstream : List Nat) (is_use : Nat) :
    nsh_telnetecho cn_outstream is_use
      = cn_outstream ++
        [TELNET_IAC, if is_use = TELNET_USE_ECHO then TELNET_WILL else TELNET_DO, 1] := by
  by_cases h : is_use = TELNET_USE_ECHO
  · simp [nsh_telnetecho, fputs, telnetecho_optbuf, cstr, h, TELNET_IAC, TELNET_WILL]
  · simp [nsh_telnetecho, fputs, telnetecho_optbuf, cstr, h, TELNET_IAC, TELNET_DO]

/-! ## Lemmas on the passes of the loop of nsh_telnetlogin -/

theorem fgets_spec (st : LoginState) :
    (fgets st).2.username = st.username ∧
    (fgets st).2.password = st.password ∧
    (fgets st).2.trace = st.trace ++ [Event.fgets (fgets st).1] ∧
    ((fgets st).1 = true → 0 ∈ (fgets st).2.cn_line) := by
  unfold fgets
  split <;> simp

theorem nsh_telnettoken_16 (cn_line buffer : List Nat) (h0 : 0 ∈ cn_line)
    (hb : buffer.length = 16) :
    ∃ line out, nsh_telnettoken cn_line buffer 16 = some (line, out) ∧ out.length = 16 := by
  refine ⟨_, _, nsh_telnettoken_eq cn_line buffer 16 h0 (by omega), ?_⟩
  rw [token_field_length 16 buffer cn_line (by omega), hb]

theorem read_username_spec (cfg : Config) (st : LoginState) (hu : st.username.length = 16) :
    ∃ st2 b, read_username cfg st = some st2 ∧
      st2.username.length = 16 ∧
      st2.password = st.password ∧
      st2.trace = st.trace ++ [Event.fputs Msg.userprompt, Event.fflush, Event.fgets b] := by
  have hstore : store (put cfg Msg.userprompt st).username 0 0 = some (st.username.set 0 0) := by
    simp [store, put, hu]
  simp only [read_username, hstore]
  generalize hst1 : ({ put cfg Msg.userprompt st with username := st.username.set 0 0 } :
    LoginState) = st1
  have hu1 : st1.username.length = 16 := by rw [← hst1]; simp [hu]
  have hp1 : st1.password = st.password := by rw [← hst1]; simp [put]
  have ht1 : st1.trace = st.trace ++ [Event.fputs Msg.userprompt, Event.fflush] := by
    rw [← hst1]; simp [put]
  obtain ⟨h1, h2, h3, h4⟩ := fgets_spec st1
  rcases hf : fgets st1 with ⟨b, st2⟩
  rw [hf] at h1 h2 h3 h4
  simp only at h1 h2 h3 h4
  cases b with
  | false =>
    refine ⟨st2, false, rfl, by rw [h1]; exact hu1, by rw [h2]; exact hp1, ?_⟩
    rw [h3, ht1]; simp
  | true =>
    obtain ⟨line, out, htok, hout⟩ :=
      nsh_telnettoken_16 st2.cn_line st2.username (h4 rfl) (by rw [h1]; exact hu1)
    simp only [htok]
    refine ⟨_, true, rfl, hout, by simp [h2, hp1], ?_⟩
    simp [h3, ht1]

theorem read_password_spec (cfg : Config) (st : LoginState) (hp : st.password.length = 16) :
    ∃ st2 b, read_password cfg st = some (b, st2) ∧
      st2.username = st.username ∧
      st2.password.length = 16 ∧
      st2.trace = st.trace ++ [Event.fputs Msg.passwordprompt, Event.fflush,
        Event.telnetecho TELNET_NOTUSE_ECHO, Event.fgets b] := by
  have hstore : store (echo TELNET_NOTUSE_ECHO (put cfg Msg.passwordprompt st)).password 0 0
      = some (st.password.set 0 0) := by
    simp [store, put, echo, hp]
  simp only [read_password, hstore]
  generalize hst1 : ({ echo TELNET_NOTUSE_ECHO (put cfg Msg.passwordprompt st) with
    password := st.password.set 0 0 } : LoginState) = st1
  have hp1 : st1.password.length = 16 := by rw [← hst1]; simp [hp]
  have hu1 : st1.username = st.username := by rw [← hst1]; simp [put, echo]
  have ht1 : st1.trace = st.trace ++ [Event.fputs Msg.passwordprompt, Event.fflush,
      Event.telnetecho TELNET_NOTUSE_ECHO] := by
    rw [← hst1]; simp [put, echo]
  obtain ⟨h1, h2, h3, h4⟩ := fgets_spec st1
  rcases hf : fgets st1 with ⟨b, st2⟩
  rw [hf] at h1 h2 h3 h4
  simp only at h1 h2 h3 h4
  cases b with
  | false =>
    refine ⟨st2, false, rfl, by rw [h1]; exact hu1, by rw [h2]; exact hp1, ?_⟩
    rw [h3, ht1]; simp
  | true =>
    obtain ⟨line, out, htok, hout⟩ :=
      nsh_telnettoken_16 st2.cn_line st2.password (h4 rfl) (by rw [h2]; exact hp1)
    simp only [htok]
    refine ⟨_, true, rfl, by simp [h1, hu1], hout, ?_⟩
    simp [h3, ht1]

theorem check_credentials_nomatch (cfg : Config)
    (verify : Nat → List Nat → List Nat → VerifyResult) (i : Nat) (st : LoginState)
    (hv : verify i st.username st.password ≠ VerifyResult.Match) :
    ∃ st2 mid, check_credentials cfg verify i st = (false, st2) ∧
      st2.username = st.username ∧ st2.password = st.password ∧
      st2.trace = st.trace ++ mid ∧
      mid.count (Event.fputs Msg.userprompt) = 0 ∧
      mid.count (Event.fputs Msg.passwordprompt) = 0 ∧
      mid.count (Event.telnetecho TELNET_NOTUSE_ECHO) = 0 ∧
      mid.count (Event.telnetecho TELNET_USE_ECHO) = 0 := by
  unfold check_credentials
  simp only [hv, if_false]
  by_cases hd : 0 < cfg.CONFIG_NSH_LOGIN_FAILDELAY
  · simp only [hd, if_true]
    refine ⟨_, [Event.verify st.username st.password (verify i st.username st.password),
      Event.fputs Msg.badcredentials, Event.fflush,
      Event.usleep ((cfg.CONFIG_NSH_LOGIN_FAILDELAY * 1000) % 2 ^ USECONDS_BITS)], rfl, ?_⟩
    simp [put]
  · simp only [hd, if_false]
    refine ⟨_, [Event.verify st.username st.password (verify i st.username st.password),
      Event.fputs Msg.badcredentials, Event.fflush], rfl, ?_⟩
    simp [put]

theorem login_attempt_nomatch (cfg : Config)
    (verify : Nat → List Nat → List Nat → VerifyResult) (i : Nat) (st : LoginState)
    (hv : ∀ j u p, verify j u p ≠ VerifyResult.Match)
    (hu : st.username.length = 16) (hp : st.password.length = 16) :
    ∃ st2 tr, login_attempt cfg verify i st = some (false, st2) ∧
      st2.username.length = 16 ∧ st2.password.length = 16 ∧
      st2.trace = st.trace ++ tr ∧
      tr.count (Event.fputs Msg.userprompt) = 1 ∧
      tr.count (Event.fputs Msg.passwordprompt) = 1 ∧
      tr.count (Event.telnetecho TELNET_NOTUSE_ECHO) = 1 ∧
      tr.count (Event.telnetecho TELNET_USE_ECHO) = 1 := by
  obtain ⟨st1, b1, hr1, hu1, hp1, ht1⟩ := read_username_spec cfg st hu
  obtain ⟨st2, b2, hr2, hu2, hp2, ht2⟩ := read_password_spec cfg st1 (by rw [hp1]; exact hp)
  simp only [login_attempt, hr1, hr2]
  cases b2 with
  | false =>
    refine ⟨echo TELNET_USE_ECHO st2,
      [Event.fputs Msg.userprompt, Event.fflush, Event.fgets b1,
        Event.fputs Msg.passwordprompt, Event.fflush, Event.telnetecho TELNET_NOTUSE_ECHO,
        Event.fgets false, Event.telnetecho TELNET_USE_ECHO],
      rfl, by simp [echo, hu2, hu1], by simp [echo, hp2], ?_, ?_⟩
    · simp [echo, ht2, ht1]
    · simp [TELNET_USE_ECHO, TELNET_NOTUSE_ECHO]
  | true =>
    obtain ⟨st3, mid, hr3, hu3, hp3, ht3, hc1, hc2, hc3, hc4⟩ :=
      check_credentials_nomatch cfg verify i st2 (hv i _ _)
    simp only [hr3]
    refine ⟨echo TELNET_USE_ECHO st3,
      [Event.fputs Msg.userprompt, Event.fflush, Event.fgets b1,
        Event.fputs Msg.passwordprompt, Event.fflush, Event.telnetecho TELNET_NOTUSE_ECHO,
        Event.fgets true] ++ mid ++ [Event.telnetecho TELNET_USE_ECHO],
      rfl, by simp [echo, hu3, hu2, hu1], by simp [echo, hp3, hp2], ?_, ?_⟩
    · simp [echo, ht3, ht2, ht1]
    · simp only [List.count_append, hc1, hc2, hc3, hc4]
      simp [TELNET_USE_ECHO, TELNET_NOTUSE_ECHO]

theorem login_loop_nomatch (cfg : Config)
    (verify : Nat → List Nat → List Nat → VerifyResult)
    (hv : ∀ j u p, verify j u p ≠ VerifyResult.Match) (k : Nat) :
    ∀ (i : Nat) (st : LoginState), st.username.length = 16 → st.password.length = 16 →
    ∃ st2 tr, login_loop cfg verify k i st = some (-1, st2) ∧
      st2.trace = st.trace ++ tr ++ [Event.fputs Msg.loginfailure, Event.fflush] ∧
      tr.count (Event.fputs Msg.userprompt) = k ∧
      tr.count (Event.fputs Msg.passwordprompt) = k ∧
      tr.count (Event.telnetecho TELNET_NOTUSE_ECHO) = k ∧
      tr.count (Event.telnetecho TELNET_USE_ECHO) = k := by
  induction k with
  | zero =>
    intro i st _ _
    exact ⟨put cfg Msg.loginfailure st, [], rfl, by simp [put], rfl, rfl, rfl, rfl⟩
  | succ k ih =>
    intro i st hu hp
    obtain ⟨st1, tr1, hr1, hu1, hp1, ht1, a1, a2, a3, a4⟩ :=
      login_attempt_nomatch cfg verify i st hv hu hp
    obtain ⟨st2, tr2, hr2, ht2, b1, b2, b3, b4⟩ := ih (i + 1) st1 hu1 hp1
    refine ⟨st2, tr1 ++ tr2, ?_, ?_, ?_, ?_, ?_, ?_⟩
    · simp only [login_loop, hr1, hr2]
    · rw [ht2, ht1]; simp
    · rw [List.count_append, a1, b1]; omega
    · rw [List.count_append, a2, b2]; omega
    · rw [List.count_append, a3, b3]; omega
    · rw [List.count_append, a4, b4]; omega

/-! ## The properties of nsh_telnetlogin -/

/-- C10: with a verifier that never reports a match, for every number `n`
of allowed attempts and every input, `nsh_telnetlogin` returns -1 after
exactly `n` username prompts, `n` password prompts, `n` calls of
`nsh_telnetecho` that disable echo and `n` that enable it, and the last
thing it does is to write and flush the failure message. -/
theorem telnetlogin_all_fail (cfg : Config)
    (verify : Nat → List Nat → List Nat → VerifyResult)
    (pstate : console_stdio_s) (stack : Nat → Nat)
    (hv : ∀ i u p, verify i u p ≠ VerifyResult.Match) :
    ∃ st tr, nsh_telnetlogin cfg verify pstate stack = some (-1, st) ∧
      st.trace = tr ++ [Event.fputs Msg.loginfailure, Event.fflush] ∧
      st.trace.count (Event.fputs Msg.userprompt) = cfg.CONFIG_NSH_LOGIN_FAILCOUNT ∧
      st.trace.count (Event.fputs Msg.passwordprompt) = cfg.CONFIG_NSH_LOGIN_FAILCOUNT ∧
      st.trace.count (Event.telnetecho TELNET_NOTUSE_ECHO) = cfg.CONFIG_NSH_LOGIN_FAILCOUNT ∧
      st.trace.count (Event.telnetecho TELNET_USE_ECHO) = cfg.CONFIG_NSH_LOGIN_FAILCOUNT := by
  obtain ⟨st, tr, hr, ht, c1, c2, c3, c4⟩ :=
    login_loop_nomatch cfg verify hv cfg.CONFIG_NSH_LOGIN_FAILCOUNT 0
      (put cfg Msg.telnetgreeting
        { toconsole_stdio_s := pstate
          username := (List.range 16).map stack
          password := (List.range 16).map (fun j => stack (16 + j))
          trace := [] })
      (by simp [put]) (by simp [put])
  refine ⟨st, [Event.fputs Msg.telnetgreeting, Event.fflush] ++ tr, hr, ?_, ?_, ?_, ?_, ?_⟩
  · rw [ht]; simp [put]
  · rw [ht]; simp [put, List.count_append, c1]
  · rw [ht]; simp [put, List.count_append, c2]
  · rw [ht]; simp [put, List.count_append, c3]
  · rw [ht]; simp [put, List.count_append, c4]

/-- The instance of C10 at the sample build, with three allowed attempts,
on the sample console and with a verifier that always reports no match. -/
theorem telnetlogin_all_fail_witness :
    ∃ st tr,
      nsh_telnetlogin sample_config (fun _ _ _ => VerifyResult.NoMatch) sample_console
        (fun _ => 0) = some (-1, st) ∧
      st.trace = tr ++ [Event.fputs Msg.loginfailure, Event.fflush] ∧
      st.trace.count (Event.fputs Msg.userprompt)
        = sample_config.CONFIG_NSH_LOGIN_FAILCOUNT ∧
      st.trace.count (Event.fputs Msg.passwordprompt)
        = sample_config.CONFIG_NSH_LOGIN_FAILCOUNT ∧
      st.trace.count (Event.telnetecho TELNET_NOTUSE_ECHO)
        = sample_config.CONFIG_NSH_LOGIN_FAILCOUNT ∧
      st.trace.count (Event.telnetecho TELNET_USE_ECHO)
        = sample_config.CONFIG_NSH_LOGIN_FAILCOUNT :=
  telnetlogin_all_fail sample_config (fun _ _ _ => VerifyResult.NoMatch) sample_console
    (fun _ => 0) (fun _ _ _ h => VerifyResult.noConfusion h)

/-! ## Lemmas on the line that nsh_telnettoken leaves -/

theorem token_start_ge (l : List Nat) (k s : Nat) (q : Bool)
    (h : token_start l k = some (s, q)) : k ≤ s ∧ (q = true → k < s) := by
  induction l generalizing k with
  | nil => simp [token_start] at h
  | cons c l ih =>
    simp only [token_start] at h
    split_ifs at h with h1 h2 h3
    · simp only [Option.some.injEq, Prod.mk.injEq] at h
      obtain ⟨rfl, rfl⟩ := h; simp
    · simp only [Option.some.injEq, Prod.mk.injEq] at h
      obtain ⟨rfl, rfl⟩ := h; simp
    · simp only [Option.some.injEq, Prod.mk.injEq] at h
      obtain ⟨rfl, rfl⟩ := h; simp
    · obtain ⟨h4, h5⟩ := ih (k + 1) h
      exact ⟨by omega, fun hq => by have := h5 hq; omega⟩

theorem token_start_set (l : List Nat) (k s e : Nat) (q : Bool)
    (h : token_start l k = some (s, q))
    (he : if q then s ≤ k + e else s < k + e) :
    token_start (l.set e 0) k = some (s, q) := by
  induction l generalizing k e with
  | nil => simp [token_start] at h
  | cons c l ih =>
    cases e with
    | zero =>
      exfalso
      obtain ⟨h1, h2⟩ := token_start_ge _ _ _ _ h
      cases q
      · simp at he; omega
      · simp at he; have := h2 rfl; omega
    | succ e =>
      simp only [List.set_cons_succ, token_start] at h ⊢
      split_ifs at h ⊢ with h1 h2 h3
      · exact h
      · exact h
      · exact h
      · exact ih (k + 1) e h (by
          cases q
          · simp at he ⊢; omega
          · simp at he ⊢; omega)

theorem token_start_char (l : List Nat) (k s : Nat)
    (h : token_start l k = some (s, false)) :
    ∃ c, l[s - k]? = some c ∧ (c = 0 ∨ isspace c = false) := by
  induction l generalizing k with
  | nil => simp [token_start] at h
  | cons c l ih =>
    simp only [token_start] at h
    split_ifs at h with h1 h2 h3
    · simp only [Option.some.injEq, Prod.mk.injEq] at h
      obtain ⟨rfl, -⟩ := h
      exact ⟨c, by simp, Or.inl h1⟩
    · simp at h
    · simp only [Option.some.injEq, Prod.mk.injEq] at h
      obtain ⟨rfl, -⟩ := h
      exact ⟨c, by simp, Or.inr (by simpa using h3)⟩
    · obtain ⟨d, hd, hd2⟩ := ih (k + 1) h
      obtain ⟨h4, -⟩ := token_start_ge _ _ _ _ h
      refine ⟨d, ?_, hd2⟩
      have : s - k = (s - (k + 1)) + 1 := by omega
      rw [this, List.getElem?_cons_succ]
      exact hd

theorem set_split (pre tok post : List Nat) (t v : Nat) :
    (pre ++ tok ++ t :: post).set (pre.length + tok.length) v = pre ++ tok ++ v :: post := by
  have hlen : pre.length + tok.length = (pre ++ tok).length := by simp
  rw [hlen, List.set_append_right _ _ (le_refl _)]
  simp

theorem getElem?_split (pre tok post : List Nat) (t : Nat) :
    (pre ++ tok ++ t :: post)[pre.length + tok.length]? = some t := by
  have hlen : pre.length + tok.length = (pre ++ tok).length := by simp
  rw [hlen, List.getElem?_append_right (le_refl _)]
  simp

/-- The first loop of `nsh_telnettoken` stops at the same place on the line
that the function leaves. -/
theorem token_start_stable (pre tok post : List Nat) (t : Nat) (quoted : Bool)
    (hstart : token_start (pre ++ tok ++ t :: post) 0 = some (pre.length, quoted))
    (ht : t = 0 ∨ (if quoted then t = QUOTE else isspace t = true)) :
    token_start (pre ++ tok ++ 0 :: post) 0 = some (pre.length, quoted) := by
  by_cases hcase : quoted = true ∨ tok ≠ []
  · have := token_start_set _ 0 pre.length (pre.length + tok.length) quoted hstart (by
      rcases hcase with hq | htk
      · simp [hq]
      · have : 0 < tok.length := List.length_pos.2 htk
        cases quoted
        · simp; omega
        · simp)
    rw [set_split] at this
    exact this
  · simp only [not_or, Bool.not_eq_true, not_not] at hcase
    obtain ⟨hq, htk⟩ := hcase
    subst hq htk
    obtain ⟨c, hc, hc2⟩ := token_start_char _ 0 pre.length hstart
    have hget := getElem?_split pre [] post t
    simp only [List.length_nil, Nat.add_zero] at hget
    rw [Nat.sub_zero, hget] at hc
    have htc : t = c := Option.some.inj hc
    subst htc
    have ht0 : t = 0 := by
      rcases ht with ht | ht
      · exact ht
      · rcases hc2 with hc2 | hc2
        · exact hc2
        · simp at ht; rw [ht] at hc2; cases hc2
    rw [ht0] at hstart
    exact hstart

theorem cstr_set_zero (l : List Nat) (e : Nat) : cstr (l.set e 0) = (cstr l).take e := by
  induction l generalizing e with
  | nil => simp [cstr]
  | cons c l ih =>
    cases e with
    | zero => simp [cstr]
    | succ e =>
      have := ih e
      simp only [cstr] at this ⊢
      by_cases hc : c = 0
      · simp [hc]
      · simp [List.takeWhile_cons, hc, this]

/-- C19: `nsh_telnettoken` changes the line buffer in one position only.  On
a line that holds a NUL, the position `e` at the end of the token holds the
closing quote (for a quoted token), the first whitespace after the token
(for an unquoted one) or the NUL of the line; after the call that byte is a
NUL, every other byte and the length of the buffer are as before, and the
string in the buffer is the old string cut at `e`, a prefix of it. -/
theorem telnettoken_line_effect (line buffer : List Nat) (n : Nat)
    (h0 : 0 ∈ line) (hn : n ≤ buffer.length) :
    ∃ start quoted e t out,
      token_start line 0 = some (start, quoted) ∧
      e = token_offset line + (token_of line).length ∧
      (line)[e]? = some t ∧
      (t = 0 ∨ (if quoted then t = QUOTE else isspace t = true)) ∧
      nsh_telnettoken line buffer n = some (line.set e 0, out) ∧
      (line.set e 0)[e]? = some 0 ∧
      (∀ j, j ≠ e → (line.set e 0)[j]? = (line)[j]?) ∧
      (line.set e 0).length = line.length ∧
      cstr (line.set e 0) = (cstr line).take e ∧
      cstr (line.set e 0) <+: cstr line := by
  obtain ⟨pre, post, t, quoted, hline, hoff, hstart, -, ht⟩ := token_split line h0
  have hget : (line)[token_offset line + (token_of line).length]? = some t := by
    rw [← hoff]
    generalize token_of line = tok at hline
    rw [hline]
    exact getElem?_split pre tok post t
  have hlt : token_offset line + (token_of line).length < line.length :=
    (List.getElem?_eq_some.1 hget).1
  refine ⟨pre.length, quoted, _, t, _, hstart, rfl, hget, ht,
    nsh_telnettoken_eq line buffer n h0 hn, ?_, ?_, ?_, cstr_set_zero _ _, ?_⟩
  · rw [List.getElem?_set]; simp [hlt]
  · intro j hj
    rw [List.getElem?_set]; simp [Ne.symm hj]
  · simp
  · rw [cstr_set_zero]; exact List.take_prefix _ _

/-- The instance of C19 at the line `"ab" c` with a capacity of four. -/
theorem telnettoken_line_effect_witness :
    ∃ start quoted e t out,
      token_start [34, 97, 98, 34, 32, 99, 0] 0 = some (start, quoted) ∧
      e = token_offset [34, 97, 98, 34, 32, 99, 0]
        + (token_of [34, 97, 98, 34, 32, 99, 0]).length ∧
      ([34, 97, 98, 34, 32, 99, 0] : List Nat)[e]? = some t ∧
      (t = 0 ∨ (if quoted then t = QUOTE else isspace t = true)) ∧
      nsh_telnettoken [34, 97, 98, 34, 32, 99, 0] [1, 1, 1, 1] 4
        = some (([34, 97, 98, 34, 32, 99, 0] : List Nat).set e 0, out) ∧
      (([34, 97, 98, 34, 32, 99, 0] : List Nat).set e 0)[e]? = some 0 ∧
      (∀ j, j ≠ e → (([34, 97, 98, 34, 32, 99, 0] : List Nat).set e 0)[j]?
        = ([34, 97, 98, 34, 32, 99, 0] : List Nat)[j]?) ∧
      (([34, 97, 98, 34, 32, 99, 0] : List Nat).set e 0).length
        = ([34, 97, 98, 34, 32, 99, 0] : List Nat).length ∧
      cstr (([34, 97, 98, 34, 32, 99, 0] : List Nat).set e 0)
        = (cstr [34, 97, 98, 34, 32, 99, 0]).take e ∧
      cstr (([34, 97, 98, 34, 32, 99, 0] : List Nat).set e 0)
        <+: cstr [34, 97, 98, 34, 32, 99, 0] :=
  telnettoken_line_effect [34, 97, 98, 34, 32, 99, 0] [1, 1, 1, 1] 4 (by decide) (by decide)

/-- C20: `nsh_telnettoken` is idempotent.  On a line that holds a NUL, a
second call on the line as the first call left it, into the buffer as the
first call left it or into the buffer as it was before, leaves the line as
it is and gives the same buffer as the first call. -/
theorem telnettoken_idempotent (line buffer : List Nat) (n : Nat)
    (h0 : 0 ∈ line) (hn : n ≤ buffer.length) :
    ∃ line1 out1,
      nsh_telnettoken line buffer n = some (line1, out1) ∧
      nsh_telnettoken line1 out1 n = some (line1, out1) ∧
      nsh_telnettoken line1 buffer n = some (line1, out1) := by
  obtain ⟨pre, post, t, quoted, hline, -, hstart, htok, ht⟩ := token_split line h0
  generalize token_of line = tok at hline htok
  subst hline
  have hstart1 := token_start_stable pre tok post t quoted hstart ht
  have hrun := nsh_telnettoken_split pre tok post buffer t n quoted hstart htok ht hn
  have hlen : ((tok ++ [0]).take n).length ≤ n := by
    rw [List.length_take]; omega
  have hn1 : n ≤ ((tok ++ [0]).take n
      ++ buffer.drop ((tok ++ [0]).take n).length).length := by
    rw [List.length_append, List.length_drop]; omega
  have hrun1 := nsh_telnettoken_split pre tok post _ 0 n quoted hstart1 htok (Or.inl rfl) hn1
  have hrun2 := nsh_telnettoken_split pre tok post buffer 0 n quoted hstart1 htok (Or.inl rfl) hn
  refine ⟨_, _, hrun, ?_, hrun2⟩
  rw [hrun1]
  congr 3
  rw [List.drop_append_of_le_length (le_refl _)]
  simp

/-- The instance of C20 at the line `"ab" c` with a capacity of four. -/
theorem telnettoken_idempotent_witness :
    ∃ line1 out1,
      nsh_telnettoken [34, 97, 98, 34, 32, 99, 0] [1, 1, 1, 1] 4 = some (line1, out1) ∧
      nsh_telnettoken line1 out1 4 = some (line1, out1) ∧
      nsh_telnettoken line1 [1, 1, 1, 1] 4 = some (line1, out1) :=
  telnettoken_idempotent [34, 97, 98, 34, 32, 99, 0] [1, 1, 1, 1] 4 (by decide) (by decide)

/-! ## The state after each part of a pass of the loop -/

theorem cstr_append_nul (s x : List Nat) : cstr (s ++ 0 :: x) = cstr s := by
  induction s with
  | nil => simp [cstr]
  | cons c s ih =>
    simp only [cstr] at ih ⊢
    by_cases hc : c = 0
    · simp [hc]
    · simp [List.takeWhile_cons, hc, ih]

theorem token_of_append_nul (s x : List Nat) : token_of (s ++ 0 :: x) = token_of s := by
  simp only [token_of, cstr_append_nul]

theorem nsh_telnettoken_field (s x buffer : List Nat) (hb : buffer.length = 16) :
    ∃ line, nsh_telnettoken (s ++ 0 :: x) buffer 16 = some (line, token_field 16 buffer s) := by
  refine ⟨(s ++ 0 :: x).set (token_offset (s ++ 0 :: x) + (token_of (s ++ 0 :: x)).length) 0, ?_⟩
  rw [nsh_telnettoken_eq (s ++ 0 :: x) buffer 16 (by simp) (by omega)]
  simp only [token_field, token_of_append_nul]

theorem username_after_length (ins : List (Option (List Nat))) (u : List Nat)
    (hu : u.length = 16) : (username_after ins u).length = 16 := by
  unfold username_after
  split
  · rw [token_field_length 16 _ _ (by simp [hu])]; simp [hu]
  · simp [hu]

theorem read_username_full (cfg : Config) (st : LoginState) (hu : st.username.length = 16) :
    ∃ st2, read_username cfg st = some st2 ∧
      st2.username.length = 16 ∧
      st2.password = st.password ∧
      st2.cn_outstream = st.cn_outstream ++ cstr cfg.g_userprompt ∧
      st2.cn_instream = st.cn_instream.drop 1 ∧
      st2.trace = st.trace ++
        [Event.fputs Msg.userprompt, Event.fflush, Event.fgets (read_ok st.cn_instream)] ∧
      st2.username = username_after st.cn_instream st.username := by
  have hstore : store (put cfg Msg.userprompt st).username 0 0 = some (st.username.set 0 0) := by
    simp [store, put, hu]
  have hlen := username_after_length st.cn_instream st.username hu
  simp only [read_username, hstore]
  rcases hin : st.cn_instream with _ | ⟨_ | s, rest⟩
  · simp [fgets, put, hin, read_ok, fputs, Config.text, hu, username_after]
  · simp [fgets, put, hin, read_ok, fputs, Config.text, hu, username_after]
  · obtain ⟨line, htok⟩ := nsh_telnettoken_field s (st.cn_line.drop (s.length + 1))
      (st.username.set 0 0) (by simp [hu])
    rw [hin] at hlen
    simp only [username_after] at hlen
    simp [fgets, put, hin, read_ok, fputs, Config.text, htok, username_after, hlen]

theorem read_password_full (cfg : Config) (st : LoginState) (hp : st.password.length = 16) :
    ∃ st2, read_password cfg st = some (read_ok st.cn_instream, st2) ∧
      st2.username = st.username ∧
      st2.password.length = 16 ∧
      st2.cn_outstream = st.cn_outstream ++ cstr cfg.g_passwordprompt ++ [255, 253, 1] ∧
      st2.cn_instream = st.cn_instream.drop 1 ∧
      st2.trace = st.trace ++
        [Event.fputs Msg.passwordprompt, Event.fflush, Event.telnetecho TELNET_NOTUSE_ECHO,
          Event.fgets (read_ok st.cn_instream)] ∧
      st2.password = username_after st.cn_instream st.password := by
  have hstore : store (echo TELNET_NOTUSE_ECHO (put cfg Msg.passwordprompt st)).password 0 0
      = some (st.password.set 0 0) := by
    simp [store, put, echo, hp]
  have hecho : nsh_telnetecho (st.cn_outstream ++ cstr cfg.g_passwordprompt) TELNET_NOTUSE_ECHO
      = st.cn_outstream ++ cstr cfg.g_passwordprompt ++ [255, 253, 1] := by
    rw [telnetecho_bytes]; rfl
  have hlen := username_after_length st.cn_instream st.password hp
  simp only [read_password, hstore]
  rcases hin : st.cn_instream with _ | ⟨_ | s, rest⟩
  · simp [fgets, put, echo, hin, read_ok, fputs, Config.text, hp, hecho, username_after]
  · simp [fgets, put, echo, hin, read_ok, fputs, Config.text, hp, hecho, username_after]
  · obtain ⟨line, htok⟩ := nsh_telnettoken_field s (st.cn_line.drop (s.length + 1))
      (st.password.set 0 0) (by simp [hp])
    rw [hin] at hlen
    simp only [username_after] at hlen
    simp [fgets, put, echo, hin, read_ok, fputs, Config.text, htok, hecho, username_after, hlen]

theorem check_credentials_match (cfg : Config)
    (verify : Nat → List Nat → List Nat → VerifyResult) (i : Nat) (st : LoginState)
    (hv : verify i st.username st.password = VerifyResult.Match) :
    ∃ st3, check_credentials cfg verify i st = (true, st3) ∧
      st3.username = st.username ∧ st3.password = st.password ∧
      st3.cn_instream = st.cn_instream ∧
      st3.cn_outstream = st.cn_outstream ++ cstr cfg.g_loginsuccess ++ [255, 251, 1] ∧
      st3.trace = st.trace ++ [Event.verify st.username st.password VerifyResult.Match,
        Event.fputs Msg.loginsuccess, Event.fflush, Event.telnetecho TELNET_USE_ECHO] := by
  have hecho : nsh_telnetecho (st.cn_outstream ++ cstr cfg.g_loginsuccess) TELNET_USE_ECHO
      = st.cn_outstream ++ cstr cfg.g_loginsuccess ++ [255, 251, 1] := by
    rw [telnetecho_bytes]; rfl
  unfold check_credentials
  simp only [hv, if_true]
  exact ⟨_, rfl, by simp [echo, put], by simp [echo, put], by simp [echo, put],
    by simp [echo, put, fputs, Config.text, hecho], by simp [echo, put]⟩

theorem check_credentials_other (cfg : Config)
    (verify : Nat → List Nat → List Nat → VerifyResult) (i : Nat) (st : LoginState)
    (hv : verify i st.username st.password ≠ VerifyResult.Match) :
    ∃ st3, check_credentials cfg verify i st = (false, st3) ∧
      st3.username = st.username ∧ st3.password = st.password ∧
      st3.cn_instream = st.cn_instream ∧
      st3.cn_outstream = st.cn_outstream ++ cstr cfg.g_badcredentials ∧
      st3.trace = st.trace ++ [Event.verify st.username st.password
          (verify i st.username st.password),
        Event.fputs Msg.badcredentials, Event.fflush]
        ++ (if 0 < cfg.CONFIG_NSH_LOGIN_FAILDELAY
            then [Event.usleep ((cfg.CONFIG_NSH_LOGIN_FAILDELAY * 1000) % 2 ^ USECONDS_BITS)]
            else []) := by
  unfold check_credentials
  simp only [hv, if_false]
  by_cases hd : 0 < cfg.CONFIG_NSH_LOGIN_FAILDELAY
  · simp only [hd, if_true]
    exact ⟨_, rfl, by simp [put], by simp [put], by simp [put],
      by simp [put, fputs, Config.text], by simp [put]⟩
  · simp only [hd, if_false]
    exact ⟨_, rfl, by simp [put], by simp [put], by simp [put],
      by simp [put, fputs, Config.text], by simp [put]⟩

/-- One pass of the loop from a state in which the two arrays have their
sixteen bytes: the pass does not fault, and its outcome, its calls, the
input it uses and the bytes it writes are those of the layout above. -/
theorem login_attempt_eq (cfg : Config)
    (verify : Nat → List Nat → List Nat → VerifyResult) (i : Nat) (st : LoginState)
    (hu : st.username.length = 16) (hp : st.password.length = 16) :
    ∃ st2, login_attempt cfg verify i st = some (attempt_returns verify i st, st2) ∧
      st2.username.length = 16 ∧ st2.password.length = 16 ∧
      st2.cn_instream = st.cn_instream.drop 2 ∧
      st2.trace = st.trace ++ attempt_trace cfg verify i st ∧
      (read_ok (st.cn_instream.drop 1) = false →
        st2.cn_outstream = st.cn_outstream ++ cstr cfg.g_userprompt
          ++ cstr cfg.g_passwordprompt ++ [255, 253, 1] ++ [255, 251, 1]) ∧
      st2.username = attempt_username st ∧
      st2.password = attempt_password st := by
  obtain ⟨st1, hr1, hu1, hp1, ho1, hi1, ht1, hn1⟩ := read_username_full cfg st hu
  obtain ⟨st2, hr2, hu2, hp2, ho2, hi2, ht2, hn2⟩ :=
    read_password_full cfg st1 (by rw [hp1]; exact hp)
  have huser : st2.username = attempt_username st := by
    rw [hu2]; exact hn1
  have hpass : st2.password = attempt_password st := by
    rw [hn2, hi1, hp1]; rfl
  have hinn : st2.cn_instream = st.cn_instream.drop 2 := by
    rw [hi2, hi1, List.drop_drop]
  rw [hi1] at hr2 ht2 hn2
  simp only [login_attempt, hr1, hr2]
  cases hb2 : read_ok (st.cn_instream.drop 1) with
  | false =>
    have hb3 : read_ok st.cn_instream.tail = false := by rw [← List.drop_one]; exact hb2
    have hecho : nsh_telnetecho st2.cn_outstream TELNET_USE_ECHO
        = st2.cn_outstream ++ [255, 251, 1] := by
      rw [telnetecho_bytes]; rfl
    refine ⟨echo TELNET_USE_ECHO st2, by simp [attempt_returns, hb3], by simp [echo, hu2, hu1],
      by simp [echo, hp2], by simp [echo, hinn], ?_, ?_, by simp [echo, huser],
      by simp [echo, hpass]⟩
    · simp [echo, ht2, ht1, hb3, attempt_trace, seg_failed_read, seg_read]
    · intro _
      show nsh_telnetecho st2.cn_outstream TELNET_USE_ECHO = _
      rw [hecho, ho2, ho1]
  | true =>
    have hb3 : read_ok st.cn_instream.tail = true := by rw [← List.drop_one]; exact hb2
    by_cases hv : verify i st2.username st2.password = VerifyResult.Match
    · obtain ⟨st3, hr3, hu3, hp3, hi3, -, ht3⟩ := check_credentials_match cfg verify i st2 hv
      simp only [hr3]
      rw [huser, hpass] at hv ht3
      refine ⟨st3, by simp [attempt_returns, hb3, hv], by rw [hu3, hu2]; exact hu1,
        by rw [hp3]; exact hp2, by rw [hi3]; exact hinn, ?_, by simp [hb3],
        by rw [hu3]; exact huser, by rw [hp3]; exact hpass⟩
      simp [ht3, ht2, ht1, hb3, attempt_trace, hv, seg_match, seg_read]
    · obtain ⟨st3, hr3, hu3, hp3, hi3, -, ht3⟩ := check_credentials_other cfg verify i st2 hv
      simp only [hr3]
      rw [huser, hpass] at hv ht3
      refine ⟨echo TELNET_USE_ECHO st3, by simp [attempt_returns, hb3, hv],
        by simp [echo, hu3, hu2, hu1], by simp [echo, hp3, hp2], by simp [echo, hi3, hinn],
        ?_, by simp [hb3], by simp [echo, hu3, huser], by simp [echo, hp3, hpass]⟩
      simp [echo, ht3, ht2, ht1, hb3, attempt_trace, hv, seg_nomatch, seg_read]

theorem cstr_of_ne_zero (l : List Nat) (h : ∀ c ∈ l, c ≠ 0) : cstr l = l := by
  unfold cstr
  rw [List.takeWhile_eq_self_iff]
  intro c hc
  simpa using h c hc

theorem cstr_token_field (buffer s : List Nat) (hb : buffer.length ≤ 16) :
    cstr (token_field 16 buffer s) = (token_of s).take 16 := by
  by_cases hlen : 16 ≤ (token_of s).length
  · rw [token_field_of_le 16 buffer s hlen, List.drop_eq_nil_of_le hb, List.append_nil]
    exact cstr_of_ne_zero _ (fun c hc => token_of_ne_zero s c ((List.take_sublist _ _).subset hc))
  · rw [token_field_of_lt 16 buffer s (by omega),
      cstr_append_zero _ _ (token_of_ne_zero s), List.take_of_length_le (by omega)]

theorem cstr_set_first (l : List Nat) : cstr (l.set 0 0) = [] := by
  cases l <;> simp [cstr]

theorem attempt_username_of_fail (st : LoginState) (h : read_ok st.cn_instream = false) :
    attempt_username st = st.username.set 0 0 := by
  unfold attempt_username username_after
  rcases hin : st.cn_instream with _ | ⟨_ | s, rest⟩
  · rfl
  · rfl
  · simp [hin, read_ok] at h

theorem attempt_failed_read (cfg : Config)
    (verify : Nat → List Nat → List Nat → VerifyResult) (i : Nat) (st : LoginState)
    (h : read_ok (st.cn_instream.drop 1) = false) :
    attempt_returns verify i st = false ∧
    attempt_trace cfg verify i st = seg_failed_read (read_ok st.cn_instream) := by
  unfold attempt_returns attempt_trace
  rw [h]
  exact ⟨rfl, rfl⟩

theorem attempt_nomatch (cfg : Config)
    (verify : Nat → List Nat → List Nat → VerifyResult) (i : Nat) (st : LoginState)
    (h : read_ok (st.cn_instream.drop 1) = true)
    (hv : verify i (attempt_username st) (attempt_password st) ≠ VerifyResult.Match) :
    attempt_returns verify i st = false ∧
    attempt_trace cfg verify i st
      = seg_nomatch cfg.CONFIG_NSH_LOGIN_FAILDELAY (read_ok st.cn_instream)
        (attempt_username st) (attempt_password st)
        (verify i (attempt_username st) (attempt_password st)) := by
  unfold attempt_returns attempt_trace
  rw [h, if_pos rfl, if_neg hv]
  exact ⟨by simp [hv], rfl⟩

theorem attempt_match (cfg : Config)
    (verify : Nat → List Nat → List Nat → VerifyResult) (i : Nat) (st : LoginState)
    (h : read_ok (st.cn_instream.drop 1) = true)
    (hv : verify i (attempt_username st) (attempt_password st) = VerifyResult.Match) :
    attempt_returns verify i st = true ∧
    attempt_trace cfg verify i st
      = seg_match (read_ok st.cn_instream) (attempt_username st) (attempt_password st) := by
  unfold attempt_returns attempt_trace
  rw [h, if_pos rfl, if_pos hv]
  exact ⟨by simp [hv], rfl⟩

/-! ## The properties of one pass of the loop -/

/-- C12: in a pass in which the read of the password fails, the calls are
the username prompt, the read of the username, the password prompt, echo
off, the failed read and echo on: no call of the verifier, no message, no
delay; the bytes written end with the frame for echo off directly followed
by the frame for echo on; and the loop goes on with the next pass, or, with
no pass left, writes the failure message and returns -1. -/
theorem telnetlogin_password_read_fails (cfg : Config)
    (verify : Nat → List Nat → List Nat → VerifyResult) (i k : Nat) (st : LoginState)
    (hu : st.username.length = 16) (hp : st.password.length = 16)
    (hfail : read_ok (st.cn_instream.drop 1) = false) :
    ∃ st2, login_attempt cfg verify i st = some (false, st2) ∧
      st2.trace = st.trace ++
        [Event.fputs Msg.userprompt, Event.fflush, Event.fgets (read_ok st.cn_instream),
          Event.fputs Msg.passwordprompt, Event.fflush,
          Event.telnetecho TELNET_NOTUSE_ECHO, Event.fgets false,
          Event.telnetecho TELNET_USE_ECHO] ∧
      st2.cn_outstream = st.cn_outstream ++ cstr cfg.g_userprompt
        ++ cstr cfg.g_passwordprompt ++ [255, 253, 1] ++ [255, 251, 1] ∧
      login_loop cfg verify (k + 1) i st = login_loop cfg verify k (i + 1) st2 ∧
      login_loop cfg verify 1 i st = some (-1, put cfg Msg.loginfailure st2) := by
  obtain ⟨st2, hr, -, -, -, ht, ho, -⟩ := login_attempt_eq cfg verify i st hu hp
  obtain ⟨hret, htr⟩ := attempt_failed_read cfg verify i st hfail
  rw [hret] at hr
  refine ⟨st2, hr, ?_, ho hfail, by simp only [login_loop, hr], by simp only [login_loop, hr]⟩
  rw [ht, htr]
  rfl

/-- The instance of C12 at the first pass of the sample build on an input
of the line `alice` and then a failed read. -/
theorem telnetlogin_password_read_fails_witness :
    ∃ st2, login_attempt sample_config (fun _ _ _ => VerifyResult.Match) 0
        (sample_state [some [97, 108, 105, 99, 101, 10], none]) = some (false, st2) ∧
      st2.trace = (sample_state [some [97, 108, 105, 99, 101, 10], none]).trace ++
        [Event.fputs Msg.userprompt, Event.fflush,
          Event.fgets (read_ok (sample_state [some [97, 108, 105, 99, 101, 10], none]).cn_instream),
          Event.fputs Msg.passwordprompt, Event.fflush,
          Event.telnetecho TELNET_NOTUSE_ECHO, Event.fgets false,
          Event.telnetecho TELNET_USE_ECHO] ∧
      st2.cn_outstream = (sample_state [some [97, 108, 105, 99, 101, 10], none]).cn_outstream
        ++ cstr sample_config.g_userprompt
        ++ cstr sample_config.g_passwordprompt ++ [255, 253, 1] ++ [255, 251, 1] ∧
      login_loop sample_config (fun _ _ _ => VerifyResult.Match) (2 + 1) 0
          (sample_state [some [97, 108, 105, 99, 101, 10], none])
        = login_loop sample_config (fun _ _ _ => VerifyResult.Match) 2 (0 + 1) st2 ∧
      login_loop sample_config (fun _ _ _ => VerifyResult.Match) 1 0
          (sample_state [some [97, 108, 105, 99, 101, 10], none])
        = some (-1, put sample_config Msg.loginfailure st2) :=
  telnetlogin_password_read_fails sample_config (fun _ _ _ => VerifyResult.Match) 0 2
    (sample_state [some [97, 108, 105, 99, 101, 10], none]) (by decide) (by decide) (by decide)

theorem attempt_password_of_read (st : LoginState) (s : List Nat)
    (rest : List (Option (List Nat))) (h : st.cn_instream.drop 1 = some s :: rest) :
    attempt_password st = token_field 16 (st.password.set 0 0) s ∧
      read_ok (st.cn_instream.drop 1) = true := by
  unfold attempt_password password_after
  rw [h]
  exact ⟨rfl, rfl⟩

/-- The calls of a pass in which the password is read: the calls up to the
read, the call of the verifier on the two arrays, and the calls after it,
none of which is a call of the verifier. -/
theorem attempt_trace_of_read (cfg : Config)
    (verify : Nat → List Nat → List Nat → VerifyResult) (i : Nat) (st : LoginState)
    (h : read_ok (st.cn_instream.drop 1) = true) :
    ∃ tail, attempt_trace cfg verify i st
        = seg_read (read_ok st.cn_instream) true
          ++ [Event.verify (attempt_username st) (attempt_password st)
              (verify i (attempt_username st) (attempt_password st))]
          ++ tail ∧
      tail.countP Event.is_verify = 0 := by
  by_cases hv : verify i (attempt_username st) (attempt_password st) = VerifyResult.Match
  · rw [(attempt_match cfg verify i st h hv).2, hv]
    exact ⟨[Event.fputs Msg.loginsuccess, Event.fflush, Event.telnetecho TELNET_USE_ECHO],
      by simp [seg_match], by simp [Event.is_verify]⟩
  · rw [(attempt_nomatch cfg verify i st h hv).2]
    refine ⟨[Event.fputs Msg.badcredentials, Event.fflush]
      ++ (if 0 < cfg.CONFIG_NSH_LOGIN_FAILDELAY
          then [Event.usleep ((cfg.CONFIG_NSH_LOGIN_FAILDELAY * 1000) % 2 ^ USECONDS_BITS)]
          else [])
      ++ [Event.telnetecho TELNET_USE_ECHO], by simp [seg_nomatch], ?_⟩
    split_ifs <;> simp [Event.is_verify]

/-- C13: in a pass in which the read of the username fails, the pass goes
on: the array `username` holds the empty string, the password prompt is
written and echo is turned off, and, if the read of the password gives a
line, the verifier is called next, on that array and on the array
`password` with the token of the password line copied into it, which holds
the first sixteen bytes of that token as its string. -/
theorem telnetlogin_username_read_fails (cfg : Config)
    (verify : Nat → List Nat → List Nat → VerifyResult) (i : Nat) (st : LoginState)
    (hu : st.username.length = 16) (hp : st.password.length = 16)
    (hfail : read_ok st.cn_instream = false) :
    ∃ b st2 tail, login_attempt cfg verify i st = some (b, st2) ∧
      st2.trace = st.trace ++
        [Event.fputs Msg.userprompt, Event.fflush, Event.fgets false,
          Event.fputs Msg.passwordprompt, Event.fflush,
          Event.telnetecho TELNET_NOTUSE_ECHO,
          Event.fgets (read_ok (st.cn_instream.drop 1))] ++ tail ∧
      cstr (st.username.set 0 0) = [] ∧
      (∀ s rest, st.cn_instream.drop 1 = some s :: rest →
        cstr (token_field 16 (st.password.set 0 0) s) = (token_of s).take 16 ∧
        ∃ tail2, tail = Event.verify (st.username.set 0 0)
          (token_field 16 (st.password.set 0 0) s)
          (verify i (st.username.set 0 0) (token_field 16 (st.password.set 0 0) s))
          :: tail2) := by
  obtain ⟨st2, hr, -, -, -, ht, -⟩ := login_attempt_eq cfg verify i st hu hp
  have huser := attempt_username_of_fail st hfail
  cases hb2 : read_ok (st.cn_instream.drop 1) with
  | false =>
    refine ⟨_, st2, [Event.telnetecho TELNET_USE_ECHO], hr, ?_, cstr_set_first _, ?_⟩
    · rw [ht, (attempt_failed_read cfg verify i st hb2).2, hfail]
      simp [seg_failed_read, seg_read]
    · intro s rest hin
      rw [(attempt_password_of_read st s rest hin).2] at hb2
      cases hb2
  | true =>
    obtain ⟨tail, htr, -⟩ := attempt_trace_of_read cfg verify i st hb2
    rw [huser, hfail] at htr
    refine ⟨_, st2, Event.verify (st.username.set 0 0) (attempt_password st)
      (verify i (st.username.set 0 0) (attempt_password st)) :: tail,
      hr, ?_, cstr_set_first _, ?_⟩
    · rw [ht, htr]
      simp [seg_read]
    · intro s rest hin
      rw [(attempt_password_of_read st s rest hin).1]
      exact ⟨cstr_token_field _ s (by simp [hp]), _, rfl⟩

/-- The instance of C13 at the first pass of the sample build on an input
of a failed read and then the line `secret`. -/
theorem telnetlogin_username_read_fails_witness :
    ∃ b st2 tail, login_attempt sample_config (fun _ _ _ => VerifyResult.NoMatch) 0
        (sample_state [none, some [115, 101, 99, 114, 101, 116, 10]]) = some (b, st2) ∧
      st2.trace = (sample_state [none, some [115, 101, 99, 114, 101, 116, 10]]).trace ++
        [Event.fputs Msg.userprompt, Event.fflush, Event.fgets false,
          Event.fputs Msg.passwordprompt, Event.fflush,
          Event.telnetecho TELNET_NOTUSE_ECHO,
          Event.fgets (read_ok
            ((sample_state [none, some [115, 101, 99, 114, 101, 116, 10]]).cn_instream.drop 1))]
        ++ tail ∧
      cstr ((sample_state [none, some [115, 101, 99, 114, 101, 116, 10]]).username.set 0 0)
        = [] ∧
      (∀ s rest,
        (sample_state [none, some [115, 101, 99, 114, 101, 116, 10]]).cn_instream.drop 1
          = some s :: rest →
        cstr (token_field 16
            ((sample_state [none, some [115, 101, 99, 114, 101, 116, 10]]).password.set 0 0) s)
          = (token_of s).take 16 ∧
        ∃ tail2, tail = Event.verify
          ((sample_state [none, some [115, 101, 99, 114, 101, 116, 10]]).username.set 0 0)
          (token_field 16
            ((sample_state [none, some [115, 101, 99, 114, 101, 116, 10]]).password.set 0 0) s)
          ((fun _ _ _ => VerifyResult.NoMatch) 0
            ((sample_state [none, some [115, 101, 99, 114, 101, 116, 10]]).username.set 0 0)
            (token_field 16
              ((sample_state [none, some [115, 101, 99, 114, 101, 116, 10]]).password.set 0 0)
              s)) :: tail2) :=
  telnetlogin_username_read_fails sample_config (fun _ _ _ => VerifyResult.NoMatch) 0
    (sample_state [none, some [115, 101, 99, 114, 101, 116, 10]])
    (by decide) (by decide) (by decide)

/-- C17: in a pass in which the read of the password gives a line, the
verifier is called once, after both reads, on the two arrays: `username`
with the token of this pass's username line copied into it, which holds
the first sixteen bytes of that token as its string, or the empty string if
that read failed, and `password` with the token of this pass's password
line copied into it, which holds the first sixteen bytes of that token as
its string; the strings do not depend on anything else of the state at the
start of the pass. -/
theorem telnetlogin_verifier_args (cfg : Config)
    (verify : Nat → List Nat → List Nat → VerifyResult) (i : Nat) (st : LoginState)
    (x : Option (List Nat)) (s2 : List Nat) (rest : List (Option (List Nat)))
    (hu : st.username.length = 16) (hp : st.password.length = 16)
    (hin : st.cn_instream = x :: some s2 :: rest) :
    ∃ b st2 u seg tail, login_attempt cfg verify i st = some (b, st2) ∧
      st2.trace = st.trace ++ seg ∧
      seg = seg_read x.isSome true
        ++ [Event.verify u (token_field 16 (st.password.set 0 0) s2)
            (verify i u (token_field 16 (st.password.set 0 0) s2))] ++ tail ∧
      seg.countP Event.is_verify = 1 ∧
      (∀ s1, x = some s1 →
        u = token_field 16 (st.username.set 0 0) s1 ∧ cstr u = (token_of s1).take 16) ∧
      (x = none → u = st.username.set 0 0 ∧ cstr u = []) ∧
      cstr (token_field 16 (st.password.set 0 0) s2) = (token_of s2).take 16 := by
  obtain ⟨st2, hr, -, -, -, ht, -⟩ := login_attempt_eq cfg verify i st hu hp
  obtain ⟨hpass, hb2⟩ := attempt_password_of_read st s2 rest (by rw [hin]; rfl)
  obtain ⟨tail, htr, hcount⟩ := attempt_trace_of_read cfg verify i st hb2
  have hb1 : read_ok st.cn_instream = x.isSome := by
    rw [hin]; cases x <;> rfl
  rw [hpass, hb1] at htr
  refine ⟨_, st2, attempt_username st, _, tail, hr, ht, htr, ?_, ?_, ?_,
    cstr_token_field _ s2 (by simp [hp])⟩
  · rw [htr, List.countP_append, List.countP_append, hcount]
    simp [seg_read, Event.is_verify]
  · intro s1 hx
    have : attempt_username st = token_field 16 (st.username.set 0 0) s1 := by
      unfold attempt_username username_after; rw [hin, hx]
    rw [this]
    exact ⟨rfl, cstr_token_field _ s1 (by simp [hu])⟩
  · intro hx
    have : attempt_username st = st.username.set 0 0 := by
      unfold attempt_username username_after; rw [hin, hx]
    rw [this]
    exact ⟨rfl, cstr_set_first _⟩

/-- The instance of C17 at the first pass of the sample build on an input
of the lines `alice` and `secret`. -/
theorem telnetlogin_verifier_args_witness :
    ∃ b st2 u seg tail, login_attempt sample_config (fun _ _ _ => VerifyResult.NoMatch) 0
        (sample_state [some [97, 108, 105, 99, 101, 10],
          some [115, 101, 99, 114, 101, 116, 10]]) = some (b, st2) ∧
      st2.trace = (sample_state [some [97, 108, 105, 99, 101, 10],
          some [115, 101, 99, 114, 101, 116, 10]]).trace ++ seg ∧
      seg = seg_read (some [97, 108, 105, 99, 101, 10]).isSome true
        ++ [Event.verify u
            (token_field 16 ((sample_state [some [97, 108, 105, 99, 101, 10],
              some [115, 101, 99, 114, 101, 116, 10]]).password.set 0 0)
              [115, 101, 99, 114, 101, 116, 10])
            ((fun _ _ _ => VerifyResult.NoMatch) 0 u
              (token_field 16 ((sample_state [some [97, 108, 105, 99, 101, 10],
                some [115, 101, 99, 114, 101, 116, 10]]).password.set 0 0)
                [115, 101, 99, 114, 101, 116, 10]))] ++ tail ∧
      seg.countP Event.is_verify = 1 ∧
      (∀ s1, some [97, 108, 105, 99, 101, 10] = some s1 →
        u = token_field 16 ((sample_state [some [97, 108, 105, 99, 101, 10],
          some [115, 101, 99, 114, 101, 116, 10]]).username.set 0 0) s1 ∧
        cstr u = (token_of s1).take 16) ∧
      (some [97, 108, 105, 99, 101, 10] = none →
        u = (sample_state [some [97, 108, 105, 99, 101, 10],
          some [115, 101, 99, 114, 101, 116, 10]]).username.set 0 0 ∧ cstr u = []) ∧
      cstr (token_field 16 ((sample_state [some [97, 108, 105, 99, 101, 10],
          some [115, 101, 99, 114, 101, 116, 10]]).password.set 0 0)
          [115, 101, 99, 114, 101, 116, 10])
        = (token_of [115, 101, 99, 114, 101, 116, 10]).take 16 :=
  telnetlogin_verifier_args sample_config (fun _ _ _ => VerifyResult.NoMatch) 0
    (sample_state [some [97, 108, 105, 99, 101, 10], some [115, 101, 99, 114, 101, 116, 10]])
    (some [97, 108, 105, 99, 101, 10]) [115, 101, 99, 114, 101, 116, 10] []
    (by decide) (by decide) rfl

/-! ## The calls of a whole run -/

/-- The loop from a state in which the two arrays have their sixteen bytes:
it does not fault; its calls are those of some passes after which the loop
goes on, followed either by a pass with a match, with the result 0, or,
after all the passes, by the failure message, with the result -1. -/
theorem login_loop_structure (cfg : Config)
    (verify : Nat → List Nat → List Nat → VerifyResult) (k : Nat) :
    ∀ (i : Nat) (st : LoginState), st.username.length = 16 → st.password.length = 16 →
    ∃ (r : Int) (st2 : LoginState) (segs : List (List Event)) (final : List Event),
      login_loop cfg verify k i st = some (r, st2) ∧
      st2.trace = st.trace ++ segs.flatten ++ final ∧
      (∀ seg ∈ segs, retry_seg cfg.CONFIG_NSH_LOGIN_FAILDELAY seg) ∧
      ((r = 0 ∧ segs.length < k ∧ ∃ b1 u p, final = seg_match b1 u p) ∨
        (r = -1 ∧ segs.length = k ∧
          final = [Event.fputs Msg.loginfailure, Event.fflush])) := by
  induction k with
  | zero =>
    intro i st _ _
    exact ⟨-1, put cfg Msg.loginfailure st, [], _, rfl, by simp [put], by simp,
      Or.inr ⟨rfl, rfl, rfl⟩⟩
  | succ k ih =>
    intro i st hu hp
    obtain ⟨st1, hr, hu1, hp1, -, ht, -⟩ := login_attempt_eq cfg verify i st hu hp
    cases hb2 : read_ok (st.cn_instream.drop 1) with
    | false =>
      obtain ⟨hret, htr⟩ := attempt_failed_read cfg verify i st hb2
      rw [hret] at hr
      obtain ⟨r, st2, segs, final, hr2, ht2, hsegs, hfin⟩ := ih (i + 1) st1 hu1 hp1
      refine ⟨r, st2, seg_failed_read (read_ok st.cn_instream) :: segs, final,
        by simp only [login_loop, hr, hr2], by rw [ht2, ht, htr]; simp, ?_, ?_⟩
      · intro seg hseg
        rcases List.mem_cons.1 hseg with h | h
        · exact ⟨_, Or.inl h⟩
        · exact hsegs seg h
      · rcases hfin with ⟨h1, h2, h3⟩ | ⟨h1, h2, h3⟩
        · exact Or.inl ⟨h1, by simp; omega, h3⟩
        · exact Or.inr ⟨h1, by simp; omega, h3⟩
    | true =>
      by_cases hv : verify i (attempt_username st) (attempt_password st) = VerifyResult.Match
      · obtain ⟨hret, htr⟩ := attempt_match cfg verify i st hb2 hv
        rw [hret] at hr
        exact ⟨0, st1, [],
          seg_match (read_ok st.cn_instream) (attempt_username st) (attempt_password st),
          by simp only [login_loop, hr], by rw [ht, htr]; simp, by simp,
          Or.inl ⟨rfl, by simp, _, _, _, rfl⟩⟩
      · obtain ⟨hret, htr⟩ := attempt_nomatch cfg verify i st hb2 hv
        rw [hret] at hr
        obtain ⟨r, st2, segs, final, hr2, ht2, hsegs, hfin⟩ := ih (i + 1) st1 hu1 hp1
        refine ⟨r, st2, seg_nomatch cfg.CONFIG_NSH_LOGIN_FAILDELAY (read_ok st.cn_instream)
            (attempt_username st) (attempt_password st)
            (verify i (attempt_username st) (attempt_password st)) :: segs, final,
          by simp only [login_loop, hr, hr2], by rw [ht2, ht, htr]; simp, ?_, ?_⟩
        · intro seg hseg
          rcases List.mem_cons.1 hseg with h | h
          · exact ⟨_, Or.inr ⟨_, _, _, hv, h⟩⟩
          · exact hsegs seg h
        · rcases hfin with ⟨h1, h2, h3⟩ | ⟨h1, h2, h3⟩
          · exact Or.inl ⟨h1, by simp; omega, h3⟩
          · exact Or.inr ⟨h1, by simp; omega, h3⟩

/-- The whole run: `nsh_telnetlogin` does not fault, and its calls are the
greeting followed by the calls of the loop. -/
theorem nsh_telnetlogin_structure (cfg : Config)
    (verify : Nat → List Nat → List Nat → VerifyResult)
    (pstate : console_stdio_s) (stack : Nat → Nat) :
    ∃ (r : Int) (st : LoginState) (segs : List (List Event)) (final : List Event),
      nsh_telnetlogin cfg verify pstate stack = some (r, st) ∧
      st.trace = [Event.fputs Msg.telnetgreeting, Event.fflush] ++ segs.flatten ++ final ∧
      (∀ seg ∈ segs, retry_seg cfg.CONFIG_NSH_LOGIN_FAILDELAY seg) ∧
      ((r = 0 ∧ segs.length < cfg.CONFIG_NSH_LOGIN_FAILCOUNT ∧
          ∃ b1 u p, final = seg_match b1 u p) ∨
        (r = -1 ∧ segs.length = cfg.CONFIG_NSH_LOGIN_FAILCOUNT ∧
          final = [Event.fputs Msg.loginfailure, Event.fflush])) := by
  obtain ⟨r, st, segs, final, hr, ht, hsegs, hfin⟩ :=
    login_loop_structure cfg verify cfg.CONFIG_NSH_LOGIN_FAILCOUNT 0
      (put cfg Msg.telnetgreeting
        { toconsole_stdio_s := pstate
          username := (List.range 16).map stack
          password := (List.range 16).map (fun j => stack (16 + j))
          trace := [] })
      (by simp [put]) (by simp [put])
  exact ⟨r, st, segs, final, hr, by rw [ht]; simp [put], hsegs, hfin⟩

/-! ## Prompts and echo calls in the passes -/

theorem prompt_echo_cycles_add (a b : Nat) :
    prompt_echo_cycles (a + b) = prompt_echo_cycles a ++ prompt_echo_cycles b := by
  induction a with
  | zero => simp [prompt_echo_cycles]
  | succ a ih =>
    have : a + 1 + b = (a + b) + 1 := by omega
    rw [this]
    simp [prompt_echo_cycles, ih]

theorem prompt_echo_cycles_count (m : Nat) :
    (prompt_echo_cycles m).count (Event.telnetecho TELNET_NOTUSE_ECHO) = m ∧
    (prompt_echo_cycles m).count (Event.telnetecho TELNET_USE_ECHO) = m := by
  induction m with
  | zero => simp [prompt_echo_cycles]
  | succ m ih =>
    obtain ⟨h1, h2⟩ := ih
    simp only [prompt_echo_cycles, List.count_append, h1, h2]
    constructor <;> simp [TELNET_NOTUSE_ECHO, TELNET_USE_ECHO] <;> omega

theorem prompt_echo_cycles_last (m : Nat) :
    (prompt_echo_cycles (m + 1)).getLast? = some (Event.telnetecho TELNET_USE_ECHO) := by
  induction m with
  | zero => simp [prompt_echo_cycles]
  | succ m ih =>
    rw [prompt_echo_cycles, List.getLast?_append, ih]
    rfl

theorem retry_seg_filter (d : Nat) (seg : List Event) (h : retry_seg d seg) :
    seg.filter Event.is_prompt_or_echo = prompt_echo_cycles 1 := by
  obtain ⟨b1, h | ⟨u, p, r, -, h⟩⟩ := h
  · subst h
    simp [seg_failed_read, seg_read, Event.is_prompt_or_echo, prompt_echo_cycles]
  · subst h
    by_cases hd : 0 < d <;>
      simp [seg_nomatch, seg_read, Event.is_prompt_or_echo, prompt_echo_cycles, hd]

theorem seg_match_filter (b1 : Bool) (u p : List Nat) :
    (seg_match b1 u p).filter Event.is_prompt_or_echo = prompt_echo_cycles 1 := by
  simp [seg_match, seg_read, Event.is_prompt_or_echo, prompt_echo_cycles]

theorem retry_segs_filter (d : Nat) (segs : List (List Event))
    (h : ∀ seg ∈ segs, retry_seg d seg) :
    segs.flatten.filter Event.is_prompt_or_echo = prompt_echo_cycles segs.length := by
  induction segs with
  | nil => simp [prompt_echo_cycles]
  | cons seg segs ih =>
    have h1 := retry_seg_filter d seg (h seg (by simp))
    have h2 := ih (fun s hs => h s (by simp [hs]))
    have : (seg :: segs).length = 1 + segs.length := by simp; omega
    rw [List.flatten_cons, List.filter_append, h1, h2, this, prompt_echo_cycles_add]

/-- C14: echo is never left off.  In every run of `nsh_telnetlogin` the
username prompts and the calls of `nsh_telnetecho`, in their order, are the
sequence prompt, echo off, echo on repeated `m` times, for an `m` that is at
most the number of allowed attempts: the echo calls alternate and start
with echo off, each echo off is followed by echo on before the next prompt
and before the return, the two are equal in number, and the last echo call,
if there is one, is echo on. -/
theorem telnetlogin_echo_restored (cfg : Config)
    (verify : Nat → List Nat → List Nat → VerifyResult)
    (pstate : console_stdio_s) (stack : Nat → Nat) :
    ∃ (r : Int) (st : LoginState) (m : Nat),
      nsh_telnetlogin cfg verify pstate stack = some (r, st) ∧
      m ≤ cfg.CONFIG_NSH_LOGIN_FAILCOUNT ∧
      st.trace.filter Event.is_prompt_or_echo = prompt_echo_cycles m ∧
      st.trace.count (Event.telnetecho TELNET_NOTUSE_ECHO) = m ∧
      st.trace.count (Event.telnetecho TELNET_USE_ECHO) = m ∧
      (m = 0 ∨ (st.trace.filter Event.is_prompt_or_echo).getLast?
        = some (Event.telnetecho TELNET_USE_ECHO)) := by
  obtain ⟨r, st, segs, final, hr, ht, hsegs, hfin⟩ :=
    nsh_telnetlogin_structure cfg verify pstate stack
  have hf1 := retry_segs_filter _ segs hsegs
  have key : ∃ m, m ≤ cfg.CONFIG_NSH_LOGIN_FAILCOUNT ∧
      st.trace.filter Event.is_prompt_or_echo = prompt_echo_cycles m := by
    rcases hfin with ⟨-, hlt, b1, u, p, hfinal⟩ | ⟨-, heq, hfinal⟩
    · refine ⟨segs.length + 1, by omega, ?_⟩
      rw [ht, hfinal, List.filter_append, List.filter_append, hf1, seg_match_filter,
        prompt_echo_cycles_add]
      simp [Event.is_prompt_or_echo]
    · refine ⟨segs.length, by omega, ?_⟩
      rw [ht, hfinal, List.filter_append, List.filter_append, hf1]
      simp [Event.is_prompt_or_echo]
  obtain ⟨m, hm, hfilter⟩ := key
  have hc0 : st.trace.count (Event.telnetecho TELNET_NOTUSE_ECHO) = m := by
    rw [← List.count_filter (a := Event.telnetecho TELNET_NOTUSE_ECHO)
      (p := Event.is_prompt_or_echo) (l := st.trace) rfl, hfilter]
    exact (prompt_echo_cycles_count m).1
  have hc1 : st.trace.count (Event.telnetecho TELNET_USE_ECHO) = m := by
    rw [← List.count_filter (a := Event.telnetecho TELNET_USE_ECHO)
      (p := Event.is_prompt_or_echo) (l := st.trace) rfl, hfilter]
    exact (prompt_echo_cycles_count m).2
  refine ⟨r, st, m, hr, hm, hfilter, hc0, hc1, ?_⟩
  cases m with
  | zero => exact Or.inl rfl
  | succ m => exact Or.inr (by rw [hfilter]; exact prompt_echo_cycles_last m)

/-! ## Matches and username prompts in the passes -/

theorem retry_seg_prompts (d : Nat) (seg : List Event) (h : retry_seg d seg) :
    seg.count (Event.fputs Msg.userprompt) = 1 ∧
    ∀ u p, Event.verify u p VerifyResult.Match ∉ seg := by
  obtain ⟨b1, h | ⟨u, p, r, hr, h⟩⟩ := h
  · subst h
    simp [seg_failed_read, seg_read]
  · subst h
    by_cases hd : 0 < d
    · simp [seg_nomatch, seg_read, hd]
      intro h3; exact hr h3.symm
    · simp [seg_nomatch, seg_read, hd]
      intro h3; exact hr h3.symm

theorem retry_segs_prompts (d : Nat) (segs : List (List Event))
    (h : ∀ seg ∈ segs, retry_seg d seg) :
    segs.flatten.count (Event.fputs Msg.userprompt) = segs.length ∧
    ∀ u p, Event.verify u p VerifyResult.Match ∉ segs.flatten := by
  induction segs with
  | nil => simp
  | cons seg segs ih =>
    obtain ⟨h1, h2⟩ := retry_seg_prompts d seg (h seg (by simp))
    obtain ⟨h3, h4⟩ := ih (fun s hs => h s (by simp [hs]))
    constructor
    · rw [List.flatten_cons, List.count_append, h1, h3]; simp; omega
    · intro u p hm
      rw [List.flatten_cons] at hm
      rcases List.mem_append.1 hm with hm | hm
      · exact h2 u p hm
      · exact h4 u p hm

/-- C15: every run of `nsh_telnetlogin` ends, with one of two results.  The
result is 0 or -1; the body of the loop runs at most as often as attempts
are allowed; the result is 0 exactly when the verifier reported a match,
which then came after a read of the password that gave a line, was the
only match, and was followed by the success message and by nothing else
but the call that turns echo on; and the result is -1 exactly when all the
allowed passes were made and the verifier reported no match. -/
theorem telnetlogin_outcome (cfg : Config)
    (verify : Nat → List Nat → List Nat → VerifyResult)
    (pstate : console_stdio_s) (stack : Nat → Nat) :
    ∃ (r : Int) (st : LoginState),
      nsh_telnetlogin cfg verify pstate stack = some (r, st) ∧
      (r = 0 ∨ r = -1) ∧
      st.trace.count (Event.fputs Msg.userprompt) ≤ cfg.CONFIG_NSH_LOGIN_FAILCOUNT ∧
      (r = 0 ↔ ∃ u p, Event.verify u p VerifyResult.Match ∈ st.trace) ∧
      (r = -1 ↔
        st.trace.count (Event.fputs Msg.userprompt) = cfg.CONFIG_NSH_LOGIN_FAILCOUNT ∧
        ∀ u p, Event.verify u p VerifyResult.Match ∉ st.trace) ∧
      (r = 0 → ∃ tr u p,
        st.trace = tr ++ [Event.fgets true, Event.verify u p VerifyResult.Match,
          Event.fputs Msg.loginsuccess, Event.fflush, Event.telnetecho TELNET_USE_ECHO] ∧
        ∀ u2 p2, Event.verify u2 p2 VerifyResult.Match ∉ tr) := by
  obtain ⟨r, st, segs, final, hr, ht, hsegs, hfin⟩ :=
    nsh_telnetlogin_structure cfg verify pstate stack
  obtain ⟨hcount, hnone⟩ := retry_segs_prompts _ segs hsegs
  refine ⟨r, st, hr, ?_⟩
  rcases hfin with ⟨h0, hlt, b1, u, p, hfinal⟩ | ⟨h1, heq, hfinal⟩
  · subst h0 hfinal
    have hc : st.trace.count (Event.fputs Msg.userprompt) = segs.length + 1 := by
      rw [ht, List.count_append, List.count_append, hcount]
      simp [seg_match, seg_read]
    have hmem : Event.verify u p VerifyResult.Match ∈ st.trace := by
      rw [ht]; simp [seg_match]
    refine ⟨Or.inl rfl, by omega, Iff.intro (fun _ => ⟨u, p, hmem⟩) (fun _ => rfl),
      Iff.intro (fun h => absurd h (by decide)) (fun h => absurd hmem (h.2 u p)), fun _ => ?_⟩
    refine ⟨[Event.fputs Msg.telnetgreeting, Event.fflush] ++ segs.flatten ++
      [Event.fputs Msg.userprompt, Event.fflush, Event.fgets b1,
        Event.fputs Msg.passwordprompt, Event.fflush,
        Event.telnetecho TELNET_NOTUSE_ECHO], u, p, by rw [ht]; simp [seg_match, seg_read], ?_⟩
    intro u2 p2 hm
    rcases List.mem_append.1 hm with hm | hm
    · rcases List.mem_append.1 hm with hm | hm
      · simp at hm
      · exact hnone u2 p2 hm
    · simp at hm
  · subst h1 hfinal
    have hc : st.trace.count (Event.fputs Msg.userprompt) = segs.length := by
      rw [ht, List.count_append, List.count_append, hcount]
      simp
    have hno : ∀ u p, Event.verify u p VerifyResult.Match ∉ st.trace := by
      intro u p hm
      rw [ht] at hm
      rcases List.mem_append.1 hm with hm | hm
      · rcases List.mem_append.1 hm with hm | hm
        · simp at hm
        · exact hnone u p hm
      · simp at hm
    exact ⟨Or.inr rfl, by omega,
      Iff.intro (fun h => absurd h (by decide)) (fun ⟨u, p, h⟩ => absurd h (hno u p)),
      Iff.intro (fun _ => ⟨by omega, hno⟩) (fun _ => rfl), fun h => absurd h (by decide)⟩

/-! ## Delays in the passes -/

theorem retry_seg_delay (d : Nat) (seg : List Event) (h : retry_seg d seg) :
    (∀ x, Event.usleep x ∈ seg → 0 < d ∧ x = (d * 1000) % 2 ^ USECONDS_BITS) ∧
    (0 < d → seg.count (Event.usleep ((d * 1000) % 2 ^ USECONDS_BITS))
      = seg.count (Event.fputs Msg.badcredentials)) := by
  obtain ⟨b1, h | ⟨u, p, r, -, h⟩⟩ := h
  · subst h
    simp [seg_failed_read, seg_read]
  · subst h
    by_cases hd : 0 < d
    · simp [seg_nomatch, seg_read, hd]
    · simp [seg_nomatch, seg_read, hd]

theorem retry_segs_delay (d : Nat) (segs : List (List Event))
    (h : ∀ seg ∈ segs, retry_seg d seg) :
    (∀ x, Event.usleep x ∈ segs.flatten → 0 < d ∧ x = (d * 1000) % 2 ^ USECONDS_BITS) ∧
    (0 < d → segs.flatten.count (Event.usleep ((d * 1000) % 2 ^ USECONDS_BITS))
      = segs.flatten.count (Event.fputs Msg.badcredentials)) := by
  induction segs with
  | nil => simp
  | cons seg segs ih =>
    obtain ⟨h1, h2⟩ := retry_seg_delay d seg (h seg (by simp))
    obtain ⟨h3, h4⟩ := ih (fun s hs => h s (by simp [hs]))
    constructor
    · intro x hm
      rw [List.flatten_cons] at hm
      rcases List.mem_append.1 hm with hm | hm
      · exact h1 x hm
      · exact h3 x hm
    · intro hd
      rw [List.flatten_cons, List.count_append, List.count_append, h2 hd, h4 hd]

/-- C18, as stated, fails: with a delay of 5000000 milliseconds and a
verifier that reports no match, the run writes one bad-credentials message
and makes one call of `usleep`, and that call asks for 705032704
microseconds, the product 5000000000 cut to the 32 bits of a `useconds_t`;
no call asks for `5000000 * 1000`. -/
theorem telnetlogin_delay_counterexample :
    (nsh_telnetlogin long_delay_config (fun _ _ _ => VerifyResult.NoMatch)
        { cn_line := [], cn_outstream := [], cn_instream := [some [97, 10], some [98, 10]] }
        (fun _ => 0)).map (fun x => (x.1, x.2.trace.filter Event.is_usleep,
          x.2.trace.count (Event.fputs Msg.badcredentials),
          x.2.trace.count (Event.usleep (long_delay_config.CONFIG_NSH_LOGIN_FAILDELAY * 1000))))
      = some (-1, [Event.usleep 705032704], 1, 0) := by
  decide

/-- C18, amended: the delay follows a verification without a match and
nothing else.  The calls of a run are the greeting, then passes after which
the loop goes on, then a pass with a match or the failure message.  A pass
with a failed read of the password and a pass with a match hold no call of
`usleep`; a pass without a match holds, for a delay `d` above 0, one call of
`usleep`, right after the bad-credentials message and its flush and right
before the call that turns echo on, and for `d = 0` none.  The call asks for
`d * 1000` microseconds cut to the 32 bits of a `useconds_t`, which is
`d * 1000` when that is below `2 ^ 32`.  So a run with `d = 0` holds no call
of `usleep`, and in a run with `d` above 0 every call of `usleep` asks for
that value and there are as many of them as bad-credentials messages. -/
theorem telnetlogin_delay (cfg : Config)
    (verify : Nat → List Nat → List Nat → VerifyResult)
    (pstate : console_stdio_s) (stack : Nat → Nat) :
    ∃ (r : Int) (st : LoginState) (segs : List (List Event)) (final : List Event),
      nsh_telnetlogin cfg verify pstate stack = some (r, st) ∧
      st.trace = [Event.fputs Msg.telnetgreeting, Event.fflush] ++ segs.flatten ++ final ∧
      (∀ seg ∈ segs, ∃ b1,
        seg = [Event.fputs Msg.userprompt, Event.fflush, Event.fgets b1,
            Event.fputs Msg.passwordprompt, Event.fflush,
            Event.telnetecho TELNET_NOTUSE_ECHO, Event.fgets false,
            Event.telnetecho TELNET_USE_ECHO] ∨
        ∃ u p res, res ≠ VerifyResult.Match ∧
          seg = [Event.fputs Msg.userprompt, Event.fflush, Event.fgets b1,
              Event.fputs Msg.passwordprompt, Event.fflush,
              Event.telnetecho TELNET_NOTUSE_ECHO, Event.fgets true,
              Event.verify u p res, Event.fputs Msg.badcredentials, Event.fflush]
            ++ (if 0 < cfg.CONFIG_NSH_LOGIN_FAILDELAY
                then [Event.usleep ((cfg.CONFIG_NSH_LOGIN_FAILDELAY * 1000) % 2 ^ 32)]
                else [])
            ++ [Event.telnetecho TELNET_USE_ECHO]) ∧
      ((∃ b1 u p, final = [Event.fputs Msg.userprompt, Event.fflush, Event.fgets b1,
            Event.fputs Msg.passwordprompt, Event.fflush,
            Event.telnetecho TELNET_NOTUSE_ECHO, Event.fgets true,
            Event.verify u p VerifyResult.Match, Event.fputs Msg.loginsuccess,
            Event.fflush, Event.telnetecho TELNET_USE_ECHO]) ∨
        final = [Event.fputs Msg.loginfailure, Event.fflush]) ∧
      (cfg.CONFIG_NSH_LOGIN_FAILDELAY = 0 → ∀ x, Event.usleep x ∉ st.trace) ∧
      (0 < cfg.CONFIG_NSH_LOGIN_FAILDELAY →
        (∀ x, Event.usleep x ∈ st.trace →
          x = (cfg.CONFIG_NSH_LOGIN_FAILDELAY * 1000) % 2 ^ 32) ∧
        st.trace.count (Event.usleep ((cfg.CONFIG_NSH_LOGIN_FAILDELAY * 1000) % 2 ^ 32))
          = st.trace.count (Event.fputs Msg.badcredentials)) ∧
      (cfg.CONFIG_NSH_LOGIN_FAILDELAY * 1000 < 2 ^ 32 →
        ∀ x, Event.usleep x ∈ st.trace → x = cfg.CONFIG_NSH_LOGIN_FAILDELAY * 1000) := by
  obtain ⟨r, st, segs, final, hr, ht, hsegs, hfin⟩ :=
    nsh_telnetlogin_structure cfg verify pstate stack
  obtain ⟨hd1, hd2⟩ := retry_segs_delay _ segs hsegs
  have hbits : USECONDS_BITS = 32 := rfl
  rw [hbits] at hd1 hd2
  have hfinal_no : ∀ x, Event.usleep x ∉ final := by
    intro x hm
    rcases hfin with ⟨-, -, b1, u, p, hfinal⟩ | ⟨-, -, hfinal⟩
    · rw [hfinal] at hm; simp [seg_match, seg_read] at hm
    · rw [hfinal] at hm; simp at hm
  have hfinal_bad : final.count (Event.fputs Msg.badcredentials) = 0 := by
    rcases hfin with ⟨-, -, b1, u, p, hfinal⟩ | ⟨-, -, hfinal⟩
    · rw [hfinal]; simp [seg_match, seg_read]
    · rw [hfinal]; simp
  have hmem : ∀ x, Event.usleep x ∈ st.trace →
      0 < cfg.CONFIG_NSH_LOGIN_FAILDELAY ∧
        x = (cfg.CONFIG_NSH_LOGIN_FAILDELAY * 1000) % 2 ^ 32 := by
    intro x hm
    rw [ht] at hm
    rcases List.mem_append.1 hm with hm | hm
    · rcases List.mem_append.1 hm with hm | hm
      · simp at hm
      · exact hd1 x hm
    · exact absurd hm (hfinal_no x)
  refine ⟨r, st, segs, final, hr, ht, ?_, ?_, ?_, ?_, ?_⟩
  · intro seg hseg
    obtain ⟨b1, h | ⟨u, p, res, hres, h⟩⟩ := hsegs seg hseg
    · exact ⟨b1, Or.inl (by rw [h]; simp [seg_failed_read, seg_read])⟩
    · exact ⟨b1, Or.inr ⟨u, p, res, hres, by rw [h]; simp [seg_nomatch, seg_read, hbits]⟩⟩
  · rcases hfin with ⟨-, -, b1, u, p, hfinal⟩ | ⟨-, -, hfinal⟩
    · exact Or.inl ⟨b1, u, p, by rw [hfinal]; simp [seg_match, seg_read]⟩
    · exact Or.inr hfinal
  · intro hd x hm
    have := (hmem x hm).1
    omega
  · intro hd
    refine ⟨fun x hm => (hmem x hm).2, ?_⟩
    rw [ht, List.count_append, List.count_append, List.count_append, List.count_append,
      hd2 hd, hfinal_bad, List.count_eq_zero_of_not_mem (hfinal_no _)]
    simp
  · intro hlt x hm
    rw [(hmem x hm).2, Nat.mod_eq_of_lt hlt]

/-! ## A run with a match -/

theorem seg_nomatch_counts (d : Nat) (b1 : Bool) (u p : List Nat) (r : VerifyResult) :
    (seg_nomatch d b1 u p r).count (Event.fputs Msg.userprompt) = 1 ∧
    (seg_nomatch d b1 u p r).count (Event.fputs Msg.passwordprompt) = 1 ∧
    (seg_nomatch d b1 u p r).countP Event.is_verify = 1 ∧
    (seg_nomatch d b1 u p r).count (Event.fputs Msg.loginfailure) = 0 ∧
    (seg_nomatch d b1 u p r).count (Event.fputs Msg.loginsuccess) = 0 := by
  by_cases hd : 0 < d <;> simp [seg_nomatch, seg_read, hd, Event.is_verify]

/-- The loop from the pass with index `i` on, when the reads of the
password of the next `m + 1` passes give a line and the verifier, called on
the arrays of those passes, reports no match in the first `m` of them and a
match in the last. -/
theorem login_loop_match (cfg : Config)
    (verify : Nat → List Nat → List Nat → VerifyResult) (m : Nat) :
    ∀ (k i : Nat) (st : LoginState),
      st.username.length = 16 → st.password.length = 16 → m < k →
      (∀ t, t ≤ m → read_ok (st.cn_instream.drop (2 * t + 1)) = true) →
      (∀ t, t < m →
        verify (i + t) (pass_username st.cn_instream st.username t)
          (pass_password st.cn_instream st.password t) ≠ VerifyResult.Match) →
      verify (i + m) (pass_username st.cn_instream st.username m)
        (pass_password st.cn_instream st.password m) = VerifyResult.Match →
      ∃ st2 tr, login_loop cfg verify k i st = some (0, st2) ∧
        st2.trace = st.trace ++ tr ++
          [Event.fputs Msg.loginsuccess, Event.fflush, Event.telnetecho TELNET_USE_ECHO] ∧
        tr.count (Event.fputs Msg.userprompt) = m + 1 ∧
        tr.count (Event.fputs Msg.passwordprompt) = m + 1 ∧
        tr.countP Event.is_verify = m + 1 ∧
        tr.count (Event.fputs Msg.loginfailure) = 0 ∧
        tr.count (Event.fputs Msg.loginsuccess) = 0 := by
  induction m with
  | zero =>
    intro k i st hu hp hk hreads _ hyes
    obtain ⟨k, rfl⟩ : ∃ k2, k = k2 + 1 := ⟨k - 1, by omega⟩
    obtain ⟨st1, hr, -, -, -, ht, -⟩ := login_attempt_eq cfg verify i st hu hp
    have hb2 : read_ok (st.cn_instream.drop 1) = true := hreads 0 (le_refl _)
    obtain ⟨hret, htr⟩ := attempt_match cfg verify i st hb2 hyes
    rw [hret] at hr
    refine ⟨st1, seg_read (read_ok st.cn_instream) true ++
      [Event.verify (attempt_username st) (attempt_password st) VerifyResult.Match],
      by simp only [login_loop, hr], by rw [ht, htr]; simp [seg_match], ?_⟩
    simp [seg_read, Event.is_verify]
  | succ m ih =>
    intro k i st hu hp hk hreads hno hyes
    obtain ⟨k, rfl⟩ : ∃ k2, k = k2 + 1 := ⟨k - 1, by omega⟩
    obtain ⟨st1, hr, hu1, hp1, hi1, ht, -, hus1, hpw1⟩ :=
      login_attempt_eq cfg verify i st hu hp
    have hb2 : read_ok (st.cn_instream.drop 1) = true := hreads 0 (by omega)
    obtain ⟨hret, htr⟩ := attempt_nomatch cfg verify i st hb2 (hno 0 (by omega))
    rw [hret] at hr
    have hreads1 : ∀ t, t ≤ m → read_ok (st1.cn_instream.drop (2 * t + 1)) = true := by
      intro t ht1
      rw [hi1, List.drop_drop]
      have := hreads (t + 1) (by omega)
      rw [show 2 * (t + 1) + 1 = 2 + (2 * t + 1) by omega] at this
      exact this
    have hno1 : ∀ t, t < m →
        verify (i + 1 + t) (pass_username st1.cn_instream st1.username t)
          (pass_password st1.cn_instream st1.password t) ≠ VerifyResult.Match := by
      intro t ht1
      rw [hi1, hus1, hpw1, show i + 1 + t = i + (t + 1) by omega]
      exact hno (t + 1) (by omega)
    have hyes1 : verify (i + 1 + m) (pass_username st1.cn_instream st1.username m)
        (pass_password st1.cn_instream st1.password m) = VerifyResult.Match := by
      rw [hi1, hus1, hpw1, show i + 1 + m = i + (m + 1) by omega]
      exact hyes
    obtain ⟨st2, tr, hr2, ht2, c1, c2, c3, c4, c5⟩ :=
      ih k (i + 1) st1 hu1 hp1 (by omega) hreads1 hno1 hyes1
    obtain ⟨d1, d2, d3, d4, d5⟩ := seg_nomatch_counts cfg.CONFIG_NSH_LOGIN_FAILDELAY
      (read_ok st.cn_instream) (attempt_username st) (attempt_password st)
      (verify i (attempt_username st) (attempt_password st))
    refine ⟨st2, attempt_trace cfg verify i st ++ tr, by simp only [login_loop, hr, hr2],
      by rw [ht2, ht]; simp, ?_, ?_, ?_, ?_, ?_⟩
    · rw [List.count_append, htr, d1, c1]; omega
    · rw [List.count_append, htr, d2, c2]; omega
    · rw [List.countP_append, htr, d3, c3]; omega
    · rw [List.count_append, htr, d4, c4]
    · rw [List.count_append, htr, d5, c5]

/-- C11: let `k` be at least 1 and at most the number of allowed attempts,
let the reads of the password in the first `k` passes give a line, and let
the verifier, called in each pass on the two arrays of that pass, report no
match in the passes before the `k`-th and a match in the `k`-th.  Then
`nsh_telnetlogin` returns 0; its last calls are the success message, its
flush and the call that turns echo on; and the run holds exactly `k`
username prompts, `k` password prompts and `k` calls of the verifier, one
success message and no failure message. -/
theorem telnetlogin_match_at (cfg : Config)
    (verify : Nat → List Nat → List Nat → VerifyResult)
    (pstate : console_stdio_s) (stack : Nat → Nat) (k : Nat)
    (hk : 1 ≤ k) (hkn : k ≤ cfg.CONFIG_NSH_LOGIN_FAILCOUNT)
    (hreads : ∀ j, j < k → read_ok (pstate.cn_instream.drop (2 * j + 1)) = true)
    (hno : ∀ j, j < k - 1 →
      verify j (pass_username pstate.cn_instream ((List.range 16).map stack) j)
        (pass_password pstate.cn_instream
          ((List.range 16).map (fun t => stack (16 + t))) j) ≠ VerifyResult.Match)
    (hyes : verify (k - 1)
      (pass_username pstate.cn_instream ((List.range 16).map stack) (k - 1))
      (pass_password pstate.cn_instream
        ((List.range 16).map (fun t => stack (16 + t))) (k - 1)) = VerifyResult.Match) :
    ∃ st tr, nsh_telnetlogin cfg verify pstate stack = some (0, st) ∧
      st.trace = tr ++
        [Event.fputs Msg.loginsuccess, Event.fflush, Event.telnetecho TELNET_USE_ECHO] ∧
      st.trace.count (Event.fputs Msg.userprompt) = k ∧
      st.trace.count (Event.fputs Msg.passwordprompt) = k ∧
      st.trace.countP Event.is_verify = k ∧
      st.trace.count (Event.fputs Msg.loginsuccess) = 1 ∧
      st.trace.count (Event.fputs Msg.loginfailure) = 0 := by
  obtain ⟨st, tr, hr, ht, c1, c2, c3, c4, c5⟩ :=
    login_loop_match cfg verify (k - 1)
      cfg.CONFIG_NSH_LOGIN_FAILCOUNT 0
      (put cfg Msg.telnetgreeting
        { toconsole_stdio_s := pstate
          username := (List.range 16).map stack
          password := (List.range 16).map (fun j => stack (16 + j))
          trace := [] })
      (by simp [put]) (by simp [put]) (by omega)
      (fun t ht1 => hreads t (by omega))
      (fun t ht1 => by rw [Nat.zero_add]; exact hno t ht1)
      (by rw [Nat.zero_add]; exact hyes)
  refine ⟨st, [Event.fputs Msg.telnetgreeting, Event.fflush] ++ tr, hr,
    by rw [ht]; simp [put], ?_, ?_, ?_, ?_, ?_⟩
  · rw [ht]; simp [put, List.count_append, c1]; omega
  · rw [ht]; simp [put, List.count_append, c2]; omega
  · rw [ht]; simp [put, List.countP_append, c3, Event.is_verify]; omega
  · rw [ht]; simp [put, List.count_append, c5]
  · rw [ht]; simp [put, List.count_append, c4]

/-- The instance of C11 at the sample build, with three allowed attempts
and the fixed credentials `alice` and `secret`, on the lines `alice`,
`wrong`, `alice`, `secret`: no match in the first pass, a match in the
second. -/
theorem telnetlogin_match_at_witness :
    ∃ st tr,
      nsh_telnetlogin sample_config
        (fixed_verifier [97, 108, 105, 99, 101] [115, 101, 99, 114, 101, 116])
        sample_retry_console (fun _ => 0) = some (0, st) ∧
      st.trace = tr ++
        [Event.fputs Msg.loginsuccess, Event.fflush, Event.telnetecho TELNET_USE_ECHO] ∧
      st.trace.count (Event.fputs Msg.userprompt) = 2 ∧
      st.trace.count (Event.fputs Msg.passwordprompt) = 2 ∧
      st.trace.countP Event.is_verify = 2 ∧
      st.trace.count (Event.fputs Msg.loginsuccess) = 1 ∧
      st.trace.count (Event.fputs Msg.loginfailure) = 0 :=
  telnetlogin_match_at sample_config
    (fixed_verifier [97, 108, 105, 99, 101] [115, 101, 99, 114, 101, 116])
    sample_retry_console (fun _ => 0) 2 (by decide) (by decide) (by decide)
    (by decide) (by decide)

/-! ## Runs with verifiers that differ in errors only -/

theorem put_blur (cfg : Config) (m : Msg) (st : LoginState) :
    put cfg m st.blur = (put cfg m st).blur := by
  simp [put, LoginState.blur, Event.blur]

theorem echo_blur (is_use : Nat) (st : LoginState) :
    echo is_use st.blur = (echo is_use st).blur := by
  simp [echo, LoginState.blur, Event.blur]

theorem fgets_blur (st : LoginState) :
    fgets st.blur = ((fgets st).1, (fgets st).2.blur) := by
  rcases st with ⟨⟨line, out, ins⟩, u, p, tr⟩
  rcases ins with _ | ⟨_ | s, rest⟩ <;> simp [fgets, LoginState.blur, Event.blur]

theorem read_username_blur (cfg : Config) (st : LoginState) :
    read_username cfg st.blur = (read_username cfg st).map LoginState.blur := by
  rcases st with ⟨⟨line, out, ins⟩, u, p, tr⟩
  simp only [read_username, put, LoginState.blur, store]
  split_ifs with h
  · rcases ins with _ | ⟨_ | s, rest⟩
    · simp [fgets, Event.blur, LoginState.blur]
    · simp [fgets, Event.blur, LoginState.blur]
    · simp only [fgets]
      cases nsh_telnettoken (s ++ 0 :: List.drop (s.length + 1) line) (u.set 0 0) 16 with
      | none => rfl
      | some r => simp [Event.blur, LoginState.blur]
  · rfl

theorem read_password_blur (cfg : Config) (st : LoginState) :
    read_password cfg st.blur
      = (read_password cfg st).map (fun x => (x.1, x.2.blur)) := by
  rcases st with ⟨⟨line, out, ins⟩, u, p, tr⟩
  simp only [read_password, put, echo, LoginState.blur, store]
  split_ifs with h
  · rcases ins with _ | ⟨_ | s, rest⟩
    · simp [fgets, Event.blur, LoginState.blur]
    · simp [fgets, Event.blur, LoginState.blur]
    · simp only [fgets]
      cases nsh_telnettoken (s ++ 0 :: List.drop (s.length + 1) line) (p.set 0 0) 16 with
      | none => rfl
      | some r => simp [Event.blur, LoginState.blur]
  · rfl

theorem check_credentials_blur (cfg : Config)
    (verify : Nat → List Nat → List Nat → VerifyResult) (i : Nat) (st : LoginState) :
    check_credentials cfg (blur_verifier verify) i st.blur
      = ((check_credentials cfg verify i st).1, (check_credentials cfg verify i st).2.blur) := by
  rcases st with ⟨⟨line, out, ins⟩, u, p, tr⟩
  by_cases hv : verify i u p = VerifyResult.Match
  · simp [check_credentials, blur_verifier, hv, put, echo, LoginState.blur, Event.blur]
  · by_cases hd : 0 < cfg.CONFIG_NSH_LOGIN_FAILDELAY
    · simp [check_credentials, blur_verifier, hv, hd, put, LoginState.blur, Event.blur]
    · simp [check_credentials, blur_verifier, hv, hd, put, LoginState.blur, Event.blur]

theorem login_attempt_blur (cfg : Config)
    (verify : Nat → List Nat → List Nat → VerifyResult) (i : Nat) (st : LoginState) :
    login_attempt cfg (blur_verifier verify) i st.blur
      = (login_attempt cfg verify i st).map (fun x => (x.1, x.2.blur)) := by
  simp only [login_attempt, read_username_blur]
  cases read_username cfg st with
  | none => rfl
  | some st1 =>
    simp only [Option.map_some', read_password_blur]
    cases read_password cfg st1 with
    | none => rfl
    | some x =>
      rcases x with ⟨b, st2⟩
      cases b with
      | false => simp [echo_blur]
      | true =>
        simp only [Option.map_some', check_credentials_blur]
        rcases check_credentials cfg verify i st2 with ⟨b3, st3⟩
        cases b3 <;> simp [echo_blur]

theorem login_loop_blur (cfg : Config)
    (verify : Nat → List Nat → List Nat → VerifyResult) (k : Nat) :
    ∀ (i : Nat) (st : LoginState),
      login_loop cfg (blur_verifier verify) k i st.blur
        = (login_loop cfg verify k i st).map (fun x => (x.1, x.2.blur)) := by
  induction k with
  | zero =>
    intro i st
    simp [login_loop, put_blur]
  | succ k ih =>
    intro i st
    simp only [login_loop, login_attempt_blur]
    cases login_attempt cfg verify i st with
    | none => rfl
    | some x =>
      rcases x with ⟨b, st1⟩
      cases b with
      | false => simp [ih]
      | true => simp

theorem nsh_telnetlogin_blur (cfg : Config)
    (verify : Nat → List Nat → List Nat → VerifyResult)
    (pstate : console_stdio_s) (stack : Nat → Nat) :
    nsh_telnetlogin cfg (blur_verifier verify) pstate stack
      = (nsh_telnetlogin cfg verify pstate stack).map (fun x => (x.1, x.2.blur)) := by
  unfold nsh_telnetlogin
  rw [← login_loop_blur, ← put_blur]
  rfl

theorem blur_is_verify (e : Event) : (Event.blur e).is_verify = e.is_verify := by
  cases e <;> rfl

theorem blur_of_not_verify (e : Event) (h : e.is_verify = false) : Event.blur e = e := by
  cases e <;> first | rfl | (simp [Event.is_verify] at h)

theorem filter_blur (tr : List Event) :
    (tr.map Event.blur).filter (fun e => !e.is_verify)
      = tr.filter (fun e => !e.is_verify) := by
  induction tr with
  | nil => rfl
  | cons e tr ih =>
    rw [List.map_cons, List.filter_cons, List.filter_cons, blur_is_verify, ih]
    cases h : e.is_verify with
    | true => rfl
    | false => simp [blur_of_not_verify e h]

/-- C16: an error of the verifier looks like a mismatch.  If a second
verifier differs from a first one only in that it reports an error where
the first reports no match, then the two runs of `nsh_telnetlogin` on the
same input return the same value, write the same bytes, and make the same
calls: the same apart from the calls of the verifier, and the same
throughout once the outcome in those calls is reduced to match or no
match. -/
theorem telnetlogin_error_as_nomatch (cfg : Config)
    (verify1 verify2 : Nat → List Nat → List Nat → VerifyResult)
    (pstate : console_stdio_s) (stack : Nat → Nat)
    (h : ∀ i u p, verify2 i u p = verify1 i u p ∨
      (verify1 i u p = VerifyResult.NoMatch ∧ verify2 i u p = VerifyResult.Error)) :
    ∃ (r : Int) (st1 st2 : LoginState),
      nsh_telnetlogin cfg verify1 pstate stack = some (r, st1) ∧
      nsh_telnetlogin cfg verify2 pstate stack = some (r, st2) ∧
      st1.cn_outstream = st2.cn_outstream ∧
      st1.trace.filter (fun e => !e.is_verify) = st2.trace.filter (fun e => !e.is_verify) ∧
      st1.trace.map Event.blur = st2.trace.map Event.blur := by
  have hv : blur_verifier verify1 = blur_verifier verify2 := by
    funext i u p
    rcases h i u p with h1 | ⟨h1, h2⟩
    · simp [blur_verifier, h1]
    · simp [blur_verifier, h1, h2]
  obtain ⟨r1, st1, -, -, hr1, -⟩ := nsh_telnetlogin_structure cfg verify1 pstate stack
  obtain ⟨r2, st2, -, -, hr2, -⟩ := nsh_telnetlogin_structure cfg verify2 pstate stack
  have e1 := nsh_telnetlogin_blur cfg verify1 pstate stack
  have e2 := nsh_telnetlogin_blur cfg verify2 pstate stack
  rw [hv, e2, hr1, hr2] at e1
  simp only [Option.map_some', Option.some.injEq, Prod.mk.injEq] at e1
  obtain ⟨hr, hst⟩ := e1
  have hout : st1.cn_outstream = st2.cn_outstream := by
    have := congrArg (fun s : LoginState => s.cn_outstream) hst
    simpa [LoginState.blur] using this.symm
  have htrace : st1.trace.map Event.blur = st2.trace.map Event.blur := by
    have := congrArg (fun s : LoginState => s.trace) hst
    simpa [LoginState.blur] using this.symm
  refine ⟨r1, st1, st2, hr1, by rw [hr2, hr], hout, ?_, htrace⟩
  rw [← filter_blur st1.trace, ← filter_blur st2.trace, htrace]

/-- The instance of C16 at the sample build on the sample console, with a
verifier that always reports no match and one that reports an error in
the first pass. -/
theorem telnetlogin_error_as_nomatch_witness :
    ∃ (r : Int) (st1 st2 : LoginState),
      nsh_telnetlogin sample_config (fun _ _ _ => VerifyResult.NoMatch) sample_console
        (fun _ => 0) = some (r, st1) ∧
      nsh_telnetlogin sample_config
        (fun i _ _ => if i = 0 then VerifyResult.Error else VerifyResult.NoMatch)
        sample_console (fun _ => 0) = some (r, st2) ∧
      st1.cn_outstream = st2.cn_outstream ∧
      st1.trace.filter (fun e => !e.is_verify) = st2.trace.filter (fun e => !e.is_verify) ∧
      st1.trace.map Event.blur = st2.trace.map Event.blur :=
  telnetlogin_error_as_nomatch sample_config (fun _ _ _ => VerifyResult.NoMatch)
    (fun i _ _ => if i = 0 then VerifyResult.Error else VerifyResult.NoMatch)
    sample_console (fun _ => 0)
    (fun i _ _ => by by_cases hi : i = 0 <;> simp [hi])

end NshTelnetLogin
